import Mathlib

/-!
# gti: trending-snapshot reconciliation, tag grouping and the sync window

A shallow embedding of the parts of the repository that the specification
talks about:

* `Scrape` (`scraper/ghscraper.go`, `scrape/scraper/reposcraper.go`): the
  rank-slot reconciliation loop;
* `GhRepositoryRepo.SaveTags`, `GhRepositoryRepo.FindAllWithTags`
  (`model/repositoryrepo.go`);
* `parseEndDateTimeOption` (`cmd/githubsync.go`).

Go strings are sequences of Unicode code points (`String`), Go `int` is `Int`,
`error` values are their messages and `nil` is `none`.
-/

set_option autoImplicit false

/-- Go `error`: the message of the error; the `nil` error is `none : Option Error`. -/
abbrev Error := String

namespace time

/-- An instant as Go's `time.Time` holds it, read in its location: `sec` is the seconds
the clock of the location has counted since its `1970-01-01 00:00:00` (the Unix time plus
the offset of the location, the sum that Go's `Time.abs` starts from), and `nsec` the
nanoseconds within that second (`0 ≤ nsec < 10^9`).  For `time.Now()` the location is the
local zone of the process; in UTC `sec` is the Unix time itself.  The offset of the
location is one number: a zone whose offset changes between two instants that are
compared (a daylight-saving transition) is not modelled. -/
structure Time where
  sec : Int
  nsec : Int
deriving DecidableEq, Repr

end time

namespace unicode

/-- The lower-case mappings of Go's `unicode.CaseRanges` (the simple lower-case mappings
of the Unicode character database, version 14.0), above the ASCII range.  An entry
`(lo, hi, stride, delta)` maps each code point `lo`, `lo + stride`, ... up to `hi` to
itself plus `delta`; the entries of stride `2` are Go's alternating upper/lower
sequences, in which the code points at even offsets are the upper-case ones. -/
def lowerRanges : List (Nat × Nat × Nat × Int) :=
  [(0x00C0, 0x00D6, 1, 32), (0x00D8, 0x00DE, 1, 32), (0x0100, 0x012E, 2, 1),
    (0x0130, 0x0130, 1, -199), (0x0132, 0x0136, 2, 1), (0x0139, 0x0147, 2, 1),
    (0x014A, 0x0176, 2, 1), (0x0178, 0x0178, 1, -121), (0x0179, 0x017D, 2, 1),
    (0x0181, 0x0181, 1, 210), (0x0182, 0x0184, 2, 1), (0x0186, 0x0186, 1, 206),
    (0x0187, 0x0187, 1, 1), (0x0189, 0x018A, 1, 205), (0x018B, 0x018B, 1, 1),
    (0x018E, 0x018E, 1, 79), (0x018F, 0x018F, 1, 202), (0x0190, 0x0190, 1, 203),
    (0x0191, 0x0191, 1, 1), (0x0193, 0x0193, 1, 205), (0x0194, 0x0194, 1, 207),
    (0x0196, 0x0196, 1, 211), (0x0197, 0x0197, 1, 209), (0x0198, 0x0198, 1, 1),
    (0x019C, 0x019C, 1, 211), (0x019D, 0x019D, 1, 213), (0x019F, 0x019F, 1, 214),
    (0x01A0, 0x01A4, 2, 1), (0x01A6, 0x01A6, 1, 218), (0x01A7, 0x01A7, 1, 1),
    (0x01A9, 0x01A9, 1, 218), (0x01AC, 0x01AC, 1, 1), (0x01AE, 0x01AE, 1, 218),
    (0x01AF, 0x01AF, 1, 1), (0x01B1, 0x01B2, 1, 217), (0x01B3, 0x01B5, 2, 1),
    (0x01B7, 0x01B7, 1, 219), (0x01B8, 0x01B8, 1, 1), (0x01BC, 0x01BC, 1, 1),
    (0x01C4, 0x01C4, 1, 2), (0x01C5, 0x01C5, 1, 1), (0x01C7, 0x01C7, 1, 2),
    (0x01C8, 0x01C8, 1, 1), (0x01CA, 0x01CA, 1, 2), (0x01CB, 0x01DB, 2, 1),
    (0x01DE, 0x01EE, 2, 1), (0x01F1, 0x01F1, 1, 2), (0x01F2, 0x01F4, 2, 1),
    (0x01F6, 0x01F6, 1, -97), (0x01F7, 0x01F7, 1, -56), (0x01F8, 0x021E, 2, 1),
    (0x0220, 0x0220, 1, -130), (0x0222, 0x0232, 2, 1), (0x023A, 0x023A, 1, 10795),
    (0x023B, 0x023B, 1, 1), (0x023D, 0x023D, 1, -163), (0x023E, 0x023E, 1, 10792),
    (0x0241, 0x0241, 1, 1), (0x0243, 0x0243, 1, -195), (0x0244, 0x0244, 1, 69),
    (0x0245, 0x0245, 1, 71), (0x0246, 0x024E, 2, 1), (0x0370, 0x0372, 2, 1),
    (0x0376, 0x0376, 1, 1), (0x037F, 0x037F, 1, 116), (0x0386, 0x0386, 1, 38),
    (0x0388, 0x038A, 1, 37), (0x038C, 0x038C, 1, 64), (0x038E, 0x038F, 1, 63),
    (0x0391, 0x03A1, 1, 32), (0x03A3, 0x03AB, 1, 32), (0x03CF, 0x03CF, 1, 8),
    (0x03D8, 0x03EE, 2, 1), (0x03F4, 0x03F4, 1, -60), (0x03F7, 0x03F7, 1, 1),
    (0x03F9, 0x03F9, 1, -7), (0x03FA, 0x03FA, 1, 1), (0x03FD, 0x03FF, 1, -130),
    (0x0400, 0x040F, 1, 80), (0x0410, 0x042F, 1, 32), (0x0460, 0x0480, 2, 1),
    (0x048A, 0x04BE, 2, 1), (0x04C0, 0x04C0, 1, 15), (0x04C1, 0x04CD, 2, 1),
    (0x04D0, 0x052E, 2, 1), (0x0531, 0x0556, 1, 48), (0x10A0, 0x10C5, 1, 7264),
    (0x10C7, 0x10C7, 1, 7264), (0x10CD, 0x10CD, 1, 7264), (0x13A0, 0x13EF, 1, 38864),
    (0x13F0, 0x13F5, 1, 8), (0x1C90, 0x1CBA, 1, -3008), (0x1CBD, 0x1CBF, 1, -3008),
    (0x1E00, 0x1E94, 2, 1), (0x1E9E, 0x1E9E, 1, -7615), (0x1EA0, 0x1EFE, 2, 1),
    (0x1F08, 0x1F0F, 1, -8), (0x1F18, 0x1F1D, 1, -8), (0x1F28, 0x1F2F, 1, -8),
    (0x1F38, 0x1F3F, 1, -8), (0x1F48, 0x1F4D, 1, -8), (0x1F59, 0x1F5F, 2, -8),
    (0x1F68, 0x1F6F, 1, -8), (0x1F88, 0x1F8F, 1, -8), (0x1F98, 0x1F9F, 1, -8),
    (0x1FA8, 0x1FAF, 1, -8), (0x1FB8, 0x1FB9, 1, -8), (0x1FBA, 0x1FBB, 1, -74),
    (0x1FBC, 0x1FBC, 1, -9), (0x1FC8, 0x1FCB, 1, -86), (0x1FCC, 0x1FCC, 1, -9),
    (0x1FD8, 0x1FD9, 1, -8), (0x1FDA, 0x1FDB, 1, -100), (0x1FE8, 0x1FE9, 1, -8),
    (0x1FEA, 0x1FEB, 1, -112), (0x1FEC, 0x1FEC, 1, -7), (0x1FF8, 0x1FF9, 1, -128),
    (0x1FFA, 0x1FFB, 1, -126), (0x1FFC, 0x1FFC, 1, -9), (0x2126, 0x2126, 1, -7517),
    (0x212A, 0x212A, 1, -8383), (0x212B, 0x212B, 1, -8262), (0x2132, 0x2132, 1, 28),
    (0x2160, 0x216F, 1, 16), (0x2183, 0x2183, 1, 1), (0x24B6, 0x24CF, 1, 26),
    (0x2C00, 0x2C2F, 1, 48), (0x2C60, 0x2C60, 1, 1), (0x2C62, 0x2C62, 1, -10743),
    (0x2C63, 0x2C63, 1, -3814), (0x2C64, 0x2C64, 1, -10727), (0x2C67, 0x2C6B, 2, 1),
    (0x2C6D, 0x2C6D, 1, -10780), (0x2C6E, 0x2C6E, 1, -10749), (0x2C6F, 0x2C6F, 1, -10783),
    (0x2C70, 0x2C70, 1, -10782), (0x2C72, 0x2C72, 1, 1), (0x2C75, 0x2C75, 1, 1),
    (0x2C7E, 0x2C7F, 1, -10815), (0x2C80, 0x2CE2, 2, 1), (0x2CEB, 0x2CED, 2, 1),
    (0x2CF2, 0x2CF2, 1, 1), (0xA640, 0xA66C, 2, 1), (0xA680, 0xA69A, 2, 1),
    (0xA722, 0xA72E, 2, 1), (0xA732, 0xA76E, 2, 1), (0xA779, 0xA77B, 2, 1),
    (0xA77D, 0xA77D, 1, -35332), (0xA77E, 0xA786, 2, 1), (0xA78B, 0xA78B, 1, 1),
    (0xA78D, 0xA78D, 1, -42280), (0xA790, 0xA792, 2, 1), (0xA796, 0xA7A8, 2, 1),
    (0xA7AA, 0xA7AA, 1, -42308), (0xA7AB, 0xA7AB, 1, -42319), (0xA7AC, 0xA7AC, 1, -42315),
    (0xA7AD, 0xA7AD, 1, -42305), (0xA7AE, 0xA7AE, 1, -42308), (0xA7B0, 0xA7B0, 1, -42258),
    (0xA7B1, 0xA7B1, 1, -42282), (0xA7B2, 0xA7B2, 1, -42261), (0xA7B3, 0xA7B3, 1, 928),
    (0xA7B4, 0xA7C2, 2, 1), (0xA7C4, 0xA7C4, 1, -48), (0xA7C5, 0xA7C5, 1, -42307),
    (0xA7C6, 0xA7C6, 1, -35384), (0xA7C7, 0xA7C9, 2, 1), (0xA7D0, 0xA7D0, 1, 1),
    (0xA7D6, 0xA7D8, 2, 1), (0xA7F5, 0xA7F5, 1, 1), (0xFF21, 0xFF3A, 1, 32),
    (0x10400, 0x10427, 1, 40), (0x104B0, 0x104D3, 1, 40), (0x10570, 0x1057A, 1, 39),
    (0x1057C, 0x1058A, 1, 39), (0x1058C, 0x10592, 1, 39), (0x10594, 0x10595, 1, 39),
    (0x10C80, 0x10CB2, 1, 64), (0x118A0, 0x118BF, 1, 32), (0x16E40, 0x16E5F, 1, 32),
    (0x1E900, 0x1E921, 1, 34)]

/-- Look a code point up in a table of case ranges: the first entry that holds it gives
the mapped code point, and a code point in no entry maps to itself. -/
def toIn (r : Nat) : List (Nat × Nat × Nat × Int) → Nat
  | [] => r
  | (lo, hi, stride, delta) :: rest =>
    if lo ≤ r ∧ r ≤ hi ∧ (r - lo) % stride = 0 then ((r : Int) + delta).toNat
    else toIn r rest

/-- Go `unicode.ToLower`: the ASCII letters directly, every other code point through the
case ranges. -/
def ToLower (c : Char) : Char :=
  if c.toNat ≤ 127 then
    if 65 ≤ c.toNat ∧ c.toNat ≤ 90 then Char.ofNat (c.toNat + 32) else c
  else Char.ofNat (toIn c.toNat lowerRanges)

end unicode

namespace strings

/-- Go `strings.ToLower`: `unicode.ToLower` on every code point of the string. -/
def ToLower (s : String) : String := ⟨s.data.map unicode.ToLower⟩

end strings

namespace dbutils

/-- Go `dbutils.NullString` (wrapping `sql.NullString`): a nullable text column. -/
structure NullString where
  String : String
  Valid : Bool
deriving DecidableEq, Repr

/-- Go `dbutils.NullInt64` (wrapping `sql.NullInt64`): a nullable integer column. -/
structure NullInt64 where
  Int64 : Int
  Valid : Bool
deriving DecidableEq, Repr

/-- Modelled from the spec: `dbutils.CollectionMap[K, V]` (the package is not among the
sources), "an insertion-ordered mapping from entity primary key to the entity being
assembled": the entries in the order in which their keys were first set. -/
structure CollectionMap (K V : Type) where
  entries : List (K × V)

namespace CollectionMap

variable {K V : Type} [DecidableEq K]

/-- Modelled from the spec: whether the key was recorded. -/
def Has (m : CollectionMap K V) (key : K) : Bool :=
  m.entries.any (fun e => decide (e.1 = key))

/-- Modelled from the spec: the entity recorded under the key, if any. -/
def Get (m : CollectionMap K V) (key : K) : Option V :=
  (m.entries.find? (fun e => decide (e.1 = key))).map (fun e => e.2)

/-- Modelled from the spec: an unseen key is recorded "at its first-seen position", after
the keys seen before; storing under a seen key replaces the entity where it stands. -/
def Set (m : CollectionMap K V) (key : K) (value : V) : CollectionMap K V :=
  if m.Has key then
    ⟨m.entries.map (fun e => if e.1 = key then (key, value) else e)⟩
  else
    ⟨m.entries ++ [(key, value)]⟩

/-- Modelled from the spec: "the exposed all accessor returns entities in first-seen
order". -/
def All (m : CollectionMap K V) : List V := m.entries.map (fun e => e.2)

end CollectionMap

/-- Modelled from the spec: `dbutils.NewCollectionMap`, the empty mapping. -/
def NewCollectionMap {K V : Type} : CollectionMap K V := ⟨[]⟩

end dbutils

namespace model

/-- Go `model.TrendingRepository`: one row of the trending table.  `Id` is the
storage-assigned key; the other fields are the ones `Scrape` reads and writes. -/
structure TrendingRepository where
  Id : Int
  RepoFullName : String
  Language : dbutils.NullString
  ScrapedAt : time.Time
  TrendDate : time.Time
  Rank : Int
deriving DecidableEq, Repr

/-- Go `map[int]TrendingRepository`, the result of `FindRankedTrendingRepoByDate`:
`m rank = some r` when `rank` is a key of the map. -/
abbrev RankedTrendingRepo := Int → Option TrendingRepository

/-- The interface of `*model.TrendingRepositoryRepo` that `Scrape` consumes, over a
store state `σ`.  Each write returns the next store state and its `error`. -/
structure TrendingRepositoryRepo (σ : Type) where
  FindRankedTrendingRepoByDate : σ → time.Time → String → Except Error RankedTrendingRepo
  Update : σ → TrendingRepository → σ × Option Error
  Save : σ → TrendingRepository → σ × Option Error

/-- The calendar day (days since `1970-01-01`) of an instant: the `trendDate` part of
a rank slot. -/
def dayOf (t : time.Time) : Int := t.sec / 86400

/-- The `Language` field `Scrape` gives to the record it inserts
(`if language != "" { ... strings.ToLower(language) ... } else { ... Valid: false ... }`):
lower-cased text, or null when no language is given. -/
def languageColumn (language : String) : dbutils.NullString :=
  if language ≠ "" then
    { String := strings.ToLower language, Valid := true }
  else
    { String := "", Valid := false }

/-- Modelled from the spec: the trending-record table behind `TrendingRepositoryRepo`
(`model/trendingrepo.go` is not among the sources).  `rows` are the stored records in
insertion order, `calls` counts the writes received so far. -/
structure TrendingTable where
  rows : List TrendingRepository
  calls : Nat
deriving DecidableEq, Repr

/-- Modelled from the spec: whether a stored record belongs to the window
`(trendDate, language)` that `FindRankedTrendingRepoByDate` fetches (the missing
method of `TrendingRepositoryRepo`): same calendar day as `date`, and the language column
that `Scrape` stores for `language`. -/
def inWindow (date : time.Time) (language : String) (r : TrendingRepository) : Bool :=
  decide (dayOf r.TrendDate = dayOf date) && decide (r.Language = languageColumn language)

/-- Modelled from the spec: `FindRankedTrendingRepoByDate` (missing method of
`TrendingRepositoryRepo`) on the rows of the table: "the current set of
TrendingRecords for `(trendDate, language)`, keyed by rank".  When several rows of the
window hold one rank the map keeps the last one, as a Go map filled in row order does. -/
def findRanked (rows : List TrendingRepository) (date : time.Time) (language : String) :
    RankedTrendingRepo :=
  fun rank => (rows.reverse).find? (fun r => inWindow date language r && decide (r.Rank = rank))

/-- Modelled from the spec: the auto-increment key the table gives to an inserted row,
above every key in use. -/
def nextId (rows : List TrendingRepository) : Int :=
  (rows.map (fun r => r.Id)).foldr max 0 + 1

/-- Modelled from the spec: the store's row-level `Insert` and `Update` behind the
missing `TrendingRepositoryRepo.Save` and `.Update`, with injected failures:
`faults n = some e` makes the write number `n` fail with `e` and change nothing.
`Save` appends the record under a fresh key; `Update` rewrites the row with the
record's `Id`. -/
def tableRepo (faults : Nat → Option Error) : TrendingRepositoryRepo TrendingTable where
  FindRankedTrendingRepoByDate := fun t date language => .ok (findRanked t.rows date language)
  Update := fun t r =>
    match faults t.calls with
    | some e => ({ t with calls := t.calls + 1 }, some e)
    | none =>
      ({ rows := t.rows.map (fun y => if y.Id = r.Id then r else y), calls := t.calls + 1 }, none)
  Save := fun t r =>
    match faults t.calls with
    | some e => ({ t with calls := t.calls + 1 }, some e)
    | none => ({ rows := t.rows ++ [{ r with Id := nextId t.rows }], calls := t.calls + 1 }, none)

/-- The rank slot `(trendDate, language, rank)` of a record. -/
def slot (r : TrendingRepository) : Int × dbutils.NullString × Int :=
  (dayOf r.TrendDate, r.Language, r.Rank)

/-- The storage keys of the rows are pairwise distinct (the primary key of the table). -/
def IdsUnique (rows : List TrendingRepository) : Prop := (rows.map (fun r => r.Id)).Nodup

/-- No two rows share a rank slot `(trendDate, language, rank)`. -/
def SlotsUnique (rows : List TrendingRepository) : Prop := (rows.map slot).Nodup

/-- The rank-to-itemKey mapping of the window of `date` and `language`. -/
def rankToItemKey (rows : List TrendingRepository) (date : time.Time) (language : String) :
    Int → Option String :=
  fun rank => (findRanked rows date language rank).map (fun r => r.RepoFullName)

/-- A store that answers every window fetch with the map `m` and accepts every write. -/
def fixedMapRepo (m : RankedTrendingRepo) : TrendingRepositoryRepo Unit where
  FindRankedTrendingRepoByDate := fun _ _ _ => .ok m
  Update := fun _ _ => ((), none)
  Save := fun _ _ => ((), none)

/-- A store that answers every window fetch with the map `m`, fails every `Update` and
accepts every `Save`. -/
def failsOnUpdate (m : RankedTrendingRepo) : TrendingRepositoryRepo Unit where
  FindRankedTrendingRepoByDate := fun _ _ _ => .ok m
  Update := fun _ _ => ((), some "update failed")
  Save := fun _ _ => ((), none)

/-- A store for the failing input of the fail-fast claim: the insert of rank 1 fails,
every other write succeeds; nothing is stored. -/
def failsAtRankOne : TrendingRepositoryRepo Unit where
  FindRankedTrendingRepoByDate := fun _ _ _ => .ok (fun _ => none)
  Update := fun _ _ => ((), none)
  Save := fun _ r => ((), if r.Rank = 1 then some "insert failed" else none)

/-- Go `model.Tag`. -/
structure Tag where
  Id : Int
  Name : String
deriving DecidableEq, Repr

/-- Go `model.Owner`, embedded in `GhRepository`. -/
structure Owner where
  Name : String
  AvatarUrl : String
deriving DecidableEq, Repr

/-- Go `model.GhRepository` with the fields `rows.Scan` fills in `repositoryrepo.go` and its
`Tags`.  The declaration is not among the sources: keys and counters are taken as `Int`,
the other columns as text. -/
structure GhRepository where
  Id : Int
  GhrId : Int
  Stars : Int
  Forks : Int
  FullName : String
  Language : String
  Owner : Owner
  CreatedAt : String
  UpdatedAt : String
  Description : String
  DefaultBranch : String
  Tags : List Tag
deriving DecidableEq, Repr

/-- One scanned row of the query of `FindAllWithTags`: the repository columns (`ghr`, whose
`Tags` the scan leaves empty), `tag_id` and `tag_name`. -/
structure TagRow where
  ghr : GhRepository
  tagId : dbutils.NullInt64
  tagName : dbutils.NullString
deriving DecidableEq, Repr

/-- The body of `for rows.Next()` in `FindAllWithTags`, after a successful `rows.Scan`. -/
def findAllWithTagsBody (collectionMap : dbutils.CollectionMap Int GhRepository)
    (row : TagRow) : dbutils.CollectionMap Int GhRepository :=
  let ghr := row.ghr
  let collectionMap :=
    if !collectionMap.Has ghr.Id then
      collectionMap.Set ghr.Id { ghr with Tags := [] }
    else collectionMap
  if row.tagId.Valid && row.tagName.Valid then
    let tag : Tag := { Id := row.tagId.Int64, Name := row.tagName.String }
    match collectionMap.Get ghr.Id with
    | some repo => collectionMap.Set ghr.Id { repo with Tags := repo.Tags ++ [tag] }
    | none => collectionMap
  else collectionMap

/-- `GhRepositoryRepo.FindAllWithTags` on the rows its query returned (each scanned
without error): the grouping fold and `collectionMap.All()`. -/
def FindAllWithTags (rows : List TagRow) : List GhRepository :=
  (rows.foldl findAllWithTagsBody dbutils.NewCollectionMap).All

/-- The distinct elements of a list in the order of their first appearance. -/
def firstSeen : List Int → List Int
  | [] => []
  | a :: l => a :: (firstSeen l).filter (fun b => decide (b ≠ a))

/-- The tags of the rows of repository `id` whose tag id and tag name are both valid, in
row order. -/
def tagsOf (id : Int) (rows : List TagRow) : List Tag :=
  rows.filterMap (fun row =>
    if row.ghr.Id = id ∧ row.tagId.Valid = true ∧ row.tagName.Valid = true then
      some { Id := row.tagId.Int64, Name := row.tagName.String }
    else none)

/-- The repository columns of the first row of repository `id`. -/
def firstRowOf (id : Int) (rows : List TagRow) : Option GhRepository :=
  (rows.find? (fun row => decide (row.ghr.Id = id))).map (fun row => row.ghr)

/-- The repository the fold should hold for `id`: the columns of its first row with the
tags of all its rows. -/
def groupedRepo (id : Int) (rows : List TagRow) : Option GhRepository :=
  (firstRowOf id rows).map (fun g => { g with Tags := tagsOf id rows })

/-- The invariant of the grouping fold after the rows `rows`. -/
def Grouped (m : dbutils.CollectionMap Int GhRepository) (rows : List TagRow) : Prop :=
  m.entries.map (fun e => e.1) = firstSeen (rows.map (fun row => row.ghr.Id)) ∧
  ∀ e ∈ m.entries, groupedRepo e.1 rows = some e.2

end model

namespace database

/-- Modelled from the spec: the store behind `database.DB` (not among the sources) as far as
`SaveTags` uses it: the committed rows `(repository_id, tag_id)` of `repositories_tags`
and the number of calls received so far, the index into the injected failures. -/
structure DB where
  repositories_tags : List (Int × Int)
  calls : Nat
deriving DecidableEq, Repr

/-- Modelled from the spec: an open transaction ("transactional `WithTransaction`", "a
single all-or-nothing unit"): the committed rows, which it does not touch, and its own
pending copy of the table. -/
structure Tx where
  committed : List (Int × Int)
  pending : List (Int × Int)
  calls : Nat
deriving DecidableEq, Repr

/-- Modelled from the spec: `db.BeginTx`; call number `db.calls` fails when `faults` says
so. -/
def BeginTx (faults : Nat → Option Error) (db : DB) : Except Error Tx :=
  match faults db.calls with
  | some e => .error e
  | none => .ok { committed := db.repositories_tags, pending := db.repositories_tags,
                  calls := db.calls + 1 }

/-- Modelled from the spec: `tx.ExecContext` of
`DELETE FROM repositories_tags WHERE repository_id = ?`. -/
def Tx.ExecDelete (faults : Nat → Option Error) (tx : Tx) (repositoryId : Int) :
    Tx × Option Error :=
  match faults tx.calls with
  | some e => ({ tx with calls := tx.calls + 1 }, some e)
  | none =>
    ({ tx with pending := tx.pending.filter (fun row => decide (row.1 ≠ repositoryId)),
               calls := tx.calls + 1 }, none)

/-- Modelled from the spec: `tx.ExecContext` of
`INSERT INTO repositories_tags (repository_id, tag_id) VALUES (?, ?)`. -/
def Tx.ExecInsert (faults : Nat → Option Error) (tx : Tx) (repositoryId tagId : Int) :
    Tx × Option Error :=
  match faults tx.calls with
  | some e => ({ tx with calls := tx.calls + 1 }, some e)
  | none => ({ tx with pending := tx.pending ++ [(repositoryId, tagId)],
                       calls := tx.calls + 1 }, none)

/-- Modelled from the spec: `result.RowsAffected()` of an insert. -/
def Tx.RowsAffected (faults : Nat → Option Error) (tx : Tx) : Tx × Option Error :=
  ({ tx with calls := tx.calls + 1 }, faults tx.calls)

/-- Modelled from the spec: `tx.Commit()`: the pending table becomes the committed one, or
the commit fails and the committed rows stay. -/
def Tx.Commit (faults : Nat → Option Error) (tx : Tx) : DB × Option Error :=
  match faults tx.calls with
  | some e => ({ repositories_tags := tx.committed, calls := tx.calls + 1 }, some e)
  | none => ({ repositories_tags := tx.pending, calls := tx.calls + 1 }, none)

/-- Modelled from the spec: `tx.Rollback()` of a transaction not yet committed: the pending
table is dropped. -/
def Tx.Rollback (tx : Tx) : DB :=
  { repositories_tags := tx.committed, calls := tx.calls + 1 }

end database

namespace model

open database

/-- The loop `for _, tag := range tags` of `SaveTags`: it stops at the first failing insert
or rows-affected call. -/
def saveTagsLoop (faults : Nat → Option Error) (ghRepo : GhRepository) :
    List Tag → Tx → Tx × Option Error
  | [], tx => (tx, none)
  | tag :: rest, tx =>
    match tx.ExecInsert faults ghRepo.Id tag.Id with
    | (tx, some err) =>
      (tx, some ("failed to run insert repositories_tags query, repository id: "
        ++ toString ghRepo.Id ++ ", tag id: " ++ toString tag.Id ++ " error: " ++ err))
    | (tx, none) =>
      match tx.RowsAffected faults with
      | (tx, some err) =>
        (tx, some ("repositories_tags insert rows affected returns error: " ++ err))
      | (tx, none) => saveTagsLoop faults ghRepo rest tx

/-- `GhRepositoryRepo.SaveTags`.  Every return after `defer tx.Rollback()` runs the
rollback; after `tx.Commit()` the deferred rollback finds the transaction done and does
nothing. -/
def SaveTags (faults : Nat → Option Error) (db : DB) (ghRepo : GhRepository)
    (tags : List Tag) : DB × Option Error :=
  match BeginTx faults db with
  | .error err =>
    (db, some ("failed to begin repository update tags transaction: " ++ err))
  | .ok tx =>
    match tx.ExecDelete faults ghRepo.Id with
    | (tx, some err) =>
      (tx.Rollback, some ("failed to run delete repositories_tags query, repository id: "
        ++ toString ghRepo.Id ++ ", error: " ++ err))
    | (tx, none) =>
      match saveTagsLoop faults ghRepo tags tx with
      | (tx, some err) => (tx.Rollback, some err)
      | (tx, none) => tx.Commit faults

/-- The tag ids associated with a repository in the committed table, in row order. -/
def tagIdsOf (db : DB) (repositoryId : Int) : List Int :=
  (db.repositories_tags.filter (fun row => decide (row.1 = repositoryId))).map (fun row => row.2)

/-- A database in which no call fails. -/
def neverFails : Nat → Option Error := fun _ => none

/-- A database in which exactly the call numbered `n` fails, with the error `"gone away"`. -/
def failsAtCall (n : Nat) : Nat → Option Error :=
  fun k => if k = n then some "gone away" else none

/-- A repository with the given id and no other data. -/
def repositoryWithId (id : Int) : GhRepository :=
  { Id := id, GhrId := 0, Stars := 0, Forks := 0, FullName := "", Language := "",
    Owner := { Name := "", AvatarUrl := "" }, CreatedAt := "", UpdatedAt := "",
    Description := "", DefaultBranch := "", Tags := [] }

end model

namespace scraper

open model

/-- A write that `Scrape` hands to the store. -/
inductive Write where
  | Update (r : TrendingRepository)
  | Save (r : TrendingRepository)
deriving DecidableEq, Repr

/-- The state threaded through the loop of `Scrape`: the store, the local variable
`err`, and the writes issued so far (oldest first). -/
structure LoopState (σ : Type) where
  store : σ
  err : Option Error
  writes : List Write

/-- The body of `for index, repo := range repos` in `Scrape`. -/
def scrapeBody {σ : Type} (gh : TrendingRepositoryRepo σ) (now : time.Time) (language : String)
    (rankedTrendingRepo : RankedTrendingRepo) (st : LoopState σ) (index : Nat) (repo : String) :
    LoopState σ :=
  let rank : Int := (index : Int) + 1
  match rankedTrendingRepo rank with
  | some trendingRepo =>
    if trendingRepo.RepoFullName ≠ "" then
      -- if trending repo exist, do update.
      let trendingRepo := { trendingRepo with RepoFullName := repo, ScrapedAt := now, TrendDate := now }
      -- the error of Update is dropped: `gh.trendRepo.Update(ctx, trendingRepo)`
      let r := gh.Update st.store trendingRepo
      { store := r.1, err := st.err, writes := st.writes ++ [Write.Update trendingRepo] }
    else
      let trendingRepo : TrendingRepository :=
        { Id := 0, RepoFullName := repo, ScrapedAt := now, TrendDate := now, Rank := rank,
          Language := languageColumn language }
      let r := gh.Save st.store trendingRepo
      { store := r.1, err := r.2, writes := st.writes ++ [Write.Save trendingRepo] }
  | none =>
    -- trending repo does not exist, do insert.
    let trendingRepo : TrendingRepository :=
      { Id := 0, RepoFullName := repo, ScrapedAt := now, TrendDate := now, Rank := rank,
        Language := languageColumn language }
    let r := gh.Save st.store trendingRepo
    { store := r.1, err := r.2, writes := st.writes ++ [Write.Save trendingRepo] }

/-- The loop `for index, repo := range repos`, from position `index` on. -/
def scrapeLoop {σ : Type} (gh : TrendingRepositoryRepo σ) (now : time.Time) (language : String)
    (rankedTrendingRepo : RankedTrendingRepo) : Nat → List String → LoopState σ → LoopState σ
  | _, [], st => st
  | index, repo :: rest, st =>
    scrapeLoop gh now language rankedTrendingRepo (index + 1) rest
      (scrapeBody gh now language rankedTrendingRepo st index repo)

/-- `Scrape` of `GhTrendScraper` and of `TrendingRepositoryScraper` (the two bodies are
the same), after the page visit: `repos` is the scraped snapshot, `now` the value of
`time.Now()`, `s` the store.  A failing window fetch returns at once with the wrapped
error; otherwise the loop runs and the last value of `err` is returned. -/
def Scrape {σ : Type} (gh : TrendingRepositoryRepo σ) (s : σ) (repos : List String)
    (now : time.Time) (language : String) : LoopState σ :=
  match gh.FindRankedTrendingRepoByDate s now language with
  | .error err =>
    { store := s, err := some ("failed to retrieve ranked trending repositoris: " ++ err),
      writes := [] }
  | .ok rankedTrendingRepo =>
    scrapeLoop gh now language rankedTrendingRepo 0 repos { store := s, err := none, writes := [] }

/-- The write the loop body issues at position `index` for the item `repo`; by
`scrapeBody_writes` it is the one `scrapeBody` appends, whatever the store answers. -/
def issuedWrite (now : time.Time) (language : String) (rankedTrendingRepo : RankedTrendingRepo)
    (index : Nat) (repo : String) : Write :=
  match rankedTrendingRepo ((index : Int) + 1) with
  | some trendingRepo =>
    if trendingRepo.RepoFullName ≠ "" then
      Write.Update { trendingRepo with RepoFullName := repo, ScrapedAt := now, TrendDate := now }
    else
      Write.Save { Id := 0, RepoFullName := repo, ScrapedAt := now, TrendDate := now,
                   Rank := (index : Int) + 1, Language := languageColumn language }
  | none =>
    Write.Save { Id := 0, RepoFullName := repo, ScrapedAt := now, TrendDate := now,
                 Rank := (index : Int) + 1, Language := languageColumn language }

/-- The writes of the positions `index`, `index + 1`, ... of a snapshot. -/
def issuedWrites (now : time.Time) (language : String) (rankedTrendingRepo : RankedTrendingRepo) :
    Nat → List String → List Write
  | _, [] => []
  | index, repo :: rest =>
    issuedWrite now language rankedTrendingRepo index repo ::
      issuedWrites now language rankedTrendingRepo (index + 1) rest

/-- The effect of a successful write on the rows of the table (see `tableRepo`). -/
def applyWrite (rows : List TrendingRepository) : Write → List TrendingRepository
  | Write.Update r => rows.map (fun y => if y.Id = r.Id then r else y)
  | Write.Save r => rows ++ [{ r with Id := nextId rows }]

/-- What one write of the loop keeps true of the table. -/
def StepKeeps (now : time.Time) (language : String) (m : RankedTrendingRepo)
    (rows : List TrendingRepository) (j : Nat) (repo : String)
    (rows1 : List TrendingRepository) : Prop :=
  IdsUnique rows1 ∧
  (∀ k : Int, k ≠ (j : Int) + 1 →
    findRanked rows1 now language k = findRanked rows now language k) ∧
  (∃ y, findRanked rows1 now language ((j : Int) + 1) = some y ∧ y.RepoFullName = repo) ∧
  ((∀ k x, m k = some x → x.RepoFullName ≠ "") → SlotsUnique rows → SlotsUnique rows1) ∧
  ((∃ x, m ((j : Int) + 1) = some x ∧ x.RepoFullName ≠ "") → rows1.length = rows.length)

end scraper

/-! ### The Go library functions that `parseEndDateTimeOption` calls -/

namespace unicode

/-- Go `unicode.IsSpace`: the code points with the Unicode White_Space property. -/
def IsSpace (c : Char) : Bool :=
  let n := c.toNat
  (9 ≤ n && n ≤ 13) || n == 32 || n == 0x85 || n == 0xA0 || n == 0x1680 ||
  (0x2000 ≤ n && n ≤ 0x200A) || n == 0x2028 || n == 0x2029 || n == 0x202F ||
  n == 0x205F || n == 0x3000

end unicode

namespace strings

/-- Go `strings.TrimSpace`: the string without its leading and trailing white space. -/
def TrimSpace (s : String) : String :=
  ⟨((s.data.dropWhile unicode.IsSpace).reverse.dropWhile unicode.IsSpace).reverse⟩

/-- Go `strings.HasSuffix`. -/
def HasSuffix (s suffix : String) : Bool :=
  suffix.data.reverse.isPrefixOf s.data.reverse

/-- Go `strings.CutSuffix`: `s` without the suffix and `true`, or `s` and `false`. -/
def CutSuffix (s suffix : String) : String × Bool :=
  if HasSuffix s suffix then
    (⟨s.data.take (s.data.length - suffix.data.length)⟩, true)
  else (s, false)

end strings

namespace strconv

/-- The value of an ASCII decimal digit. -/
def digitValue (c : Char) : Option Nat :=
  if 48 ≤ c.toNat ∧ c.toNat ≤ 57 then some (c.toNat - 48) else none

/-- The number written by a run of decimal digits that follows digits of value `acc`;
`none` when a character is not a digit. -/
def parseDigits : List Char → Nat → Option Nat
  | [], acc => some acc
  | c :: cs, acc =>
    match digitValue c with
    | some d => parseDigits cs (acc * 10 + d)
    | none => none

/-- The sign that may start the text of an integer (`true` for `-`) and the text after
it. -/
def splitSign : List Char → Bool × List Char
  | '-' :: cs => (true, cs)
  | '+' :: cs => (false, cs)
  | cs => (false, cs)

/-- Go `strconv.Atoi` on a 64-bit platform: an optional sign and at least one decimal
digit, the value within the range of `int`; anything else is an error (of syntax or of
range). -/
def Atoi (s : String) : Except Error Int :=
  let neg := (splitSign s.data).1
  let digits := (splitSign s.data).2
  if digits = [] then
    .error ("strconv.Atoi: parsing \"" ++ s ++ "\": invalid syntax")
  else
    match parseDigits digits 0 with
    | none => .error ("strconv.Atoi: parsing \"" ++ s ++ "\": invalid syntax")
    | some n =>
      let v : Int := if neg then -(n : Int) else (n : Int)
      if -(2 ^ 63 : Int) ≤ v ∧ v < (2 ^ 63 : Int) then .ok v
      else .error ("strconv.Atoi: parsing \"" ++ s ++ "\": value out of range")

end strconv

namespace time

/-- Go `time.Duration`: a count of nanoseconds in an `int64`. -/
abbrev Duration := Int

/-- The value of an integer held in an `int64` (two's complement wrap-around). -/
def wrapInt64 (x : Int) : Int := (x + 2 ^ 63) % 2 ^ 64 - 2 ^ 63

/-- Go `time.Hour`. -/
def Hour : Duration := 3600 * 1000000000

/-- The product of two `int64` values as Go computes it. -/
def mulDuration (a b : Duration) : Duration := wrapInt64 (a * b)

/-- Go `Time.Add`: `d / 1e9` and `d % 1e9` truncate toward zero, then the nanoseconds are
brought back into `[0, 1e9)`.  (The saturation of the seconds at the ends of the `int64`
range, hundreds of billions of years away, is not modelled.) -/
def Time.Add (t : Time) (d : Duration) : Time :=
  let dsec := Int.tdiv d 1000000000
  let nsec := t.nsec + Int.tmod d 1000000000
  if nsec ≥ 1000000000 then { sec := t.sec + (dsec + 1), nsec := nsec - 1000000000 }
  else if nsec < 0 then { sec := t.sec + (dsec - 1), nsec := nsec + 1000000000 }
  else { sec := t.sec + dsec, nsec := nsec }

/-- Go `unixToInternal + internalToAbsolute`: seconds from the absolute epoch (1 January of
year `absoluteZeroYear`) to the Unix epoch. -/
def unixToAbsolute : Int := 9223372028715321600

/-- Go `absoluteZeroYear`. -/
def absoluteZeroYear : Int := -292277022399

/-- Go `Time.abs`: the seconds of the clock of the location since the absolute epoch, an
unsigned number (for the instants after that epoch, some 292 billion years ago). -/
def Time.abs (t : Time) : Nat := (t.sec + unixToAbsolute).toNat

/-- Go `daysBefore`: the days of a non-leap year before the start of month `m + 1`. -/
def daysBefore (m : Nat) : Nat :=
  [0, 31, 59, 90, 120, 151, 181, 212, 243, 273, 304, 334, 365].getD m 0

/-- Go `isLeap`. -/
def isLeap (year : Int) : Bool :=
  year % 4 == 0 && (year % 100 != 0 || year % 400 == 0)

/-- The year and the day within the year (from 0) of a count of days since the absolute
epoch: the first half of Go `absDate`, cutting off 400-, 100-, 4- and 1-year cycles. -/
def absYearDay (days : Nat) : Int × Nat :=
  let d := days
  let n := d / 146097
  let y := 400 * n
  let d := d - 146097 * n
  let n := d / 36524
  let n := n - n / 4
  let y := y + 100 * n
  let d := d - 36524 * n
  let n := d / 1461
  let y := y + 4 * n
  let d := d - 1461 * n
  let n := d / 365
  let n := n - n / 4
  let y := y + n
  let d := d - 365 * n
  ((y : Int) + absoluteZeroYear, d)

/-- The month (1 to 12) and day of the month of day `yday` of a year: the second half of
Go `absDate`. -/
def monthDay (leap : Bool) (yday : Nat) : Nat × Nat :=
  if leap && yday == 31 + 29 - 1 then (2, 29)
  else
    let day := if leap && yday > 31 + 29 - 1 then yday - 1 else yday
    let month := day / 31
    let e := daysBefore (month + 1)
    if day ≥ e then (month + 1 + 1, day - e + 1)
    else (month + 1, day - daysBefore month + 1)

/-- The character of a decimal digit. -/
def digitChar (d : Nat) : Char := Char.ofNat (48 + d % 10)

/-- Go `appendInt`: the decimal text of `x`, zero-padded to `width` digits, after a `-`
when `x` is negative. -/
def appendInt (x : Int) (width : Nat) : List Char :=
  let u := x.natAbs
  (if x < 0 then ['-'] else []) ++
    (if width = 2 ∧ u < 100 then [digitChar (u / 10), digitChar u]
     else if width = 4 ∧ u < 10000 then
       [digitChar (u / 1000), digitChar (u / 100), digitChar (u / 10), digitChar u]
     else
       List.replicate (width - (Nat.toDigits 10 u).length) '0' ++ Nat.toDigits 10 u)

/-- Go `Time.Format` for the layout `"2006-01-02 15:04:05"`: the date and the time of day
that the clock of the location of `t` shows (see `Time`). -/
def Time.Format (t : Time) : String :=
  let abs := t.abs
  let yd := absYearDay (abs / 86400)
  let md := monthDay (isLeap yd.1) yd.2
  let hour := abs % 86400 / 3600
  let min := abs % 3600 / 60
  let sec := abs % 60
  ⟨appendInt yd.1 4 ++ '-' :: appendInt md.1 2 ++ '-' :: appendInt md.2 2 ++ ' ' ::
    appendInt hour 2 ++ ':' :: appendInt min 2 ++ ':' :: appendInt sec 2⟩

/-- Go `getnum`: a number of one or two digits at the start of the text (of exactly two
digits when `fixed`) and the rest of the text. -/
def getnum (s : List Char) (fixed : Bool) : Option (Nat × List Char) :=
  match s with
  | [] => none
  | c :: rest =>
    match strconv.digitValue c with
    | none => none
    | some d1 =>
      match rest with
      | c2 :: rest2 =>
        match strconv.digitValue c2 with
        | some d2 => some (d1 * 10 + d2, rest2)
        | none => if fixed then none else some (d1, rest)
      | [] => if fixed then none else some (d1, rest)

/-- Go `skip` for a layout prefix made of one character: a space in the layout stands for
any run of spaces in the value, which must not start with anything else; any other
character must be matched as it is. -/
def skip (value : List Char) (c : Char) : Option (List Char) :=
  if c = ' ' then
    match value with
    | [] => some []
    | v :: _ => if v ≠ ' ' then none else some (value.dropWhile (fun x => x == ' '))
  else
    match value with
    | v :: rest => if v = c then some rest else none
    | [] => none

/-- Go `daysIn`. -/
def daysIn (month : Nat) (year : Int) : Nat :=
  if month = 2 ∧ isLeap year then 29 else daysBefore month - daysBefore (month - 1)

/-- The fields `time.Parse` reads from a value. -/
structure Parsed where
  year : Nat
  month : Nat
  day : Nat
  hour : Nat
  min : Nat
  sec : Nat
  frac : List Char
deriving DecidableEq, Repr

/-- The fractional second that `Parse` accepts after the seconds field although the layout
has none: a period or comma followed by at least one digit; the result is the digits read
and the rest of the value. -/
def cutFraction (value : List Char) : List Char × List Char :=
  match value with
  | p :: d :: rest =>
    if (p = '.' ∨ p = ',') ∧ (strconv.digitValue d).isSome then
      (d :: rest.takeWhile (fun x => (strconv.digitValue x).isSome),
       rest.dropWhile (fun x => (strconv.digitValue x).isSome))
    else ([], value)
  | _ => ([], value)

/-- The reading of the value against the layout `"2006-01-02 15:04:05"`, chunk by chunk as
in Go `parse`: `none` when a chunk does not match, a number is out of range or text is
left over. -/
def parseFields (value : List Char) : Option Parsed :=
  match value with
  | y1 :: y2 :: y3 :: y4 :: value =>
    match strconv.parseDigits [y1, y2, y3, y4] 0 with
    | none => none
    | some year =>
      (skip value '-').bind fun value =>
      (getnum value true).bind fun (month, value) =>
      if month = 0 ∨ 12 < month then none else
      (skip value '-').bind fun value =>
      (getnum value true).bind fun (day, value) =>
      (skip value ' ').bind fun value =>
      (getnum value false).bind fun (hour, value) =>
      if 24 ≤ hour then none else
      (skip value ':').bind fun value =>
      (getnum value true).bind fun (min, value) =>
      if 60 ≤ min then none else
      (skip value ':').bind fun value =>
      (getnum value true).bind fun (sec, value) =>
      if 60 ≤ sec then none else
      let (frac, value) := cutFraction value
      if value ≠ [] then none
      else if day < 1 ∨ day > daysIn month year then none
      else some { year := year, month := month, day := day, hour := hour, min := min,
                  sec := sec, frac := frac }
  | _ => none

/-- Go `time.Parse("2006-01-02 15:04:05", value)`: the fields read, or a parse error naming
the value (the wording of Go's message is not reproduced). -/
def Parse (value : String) : Except Error Parsed :=
  match parseFields value.data with
  | some p => .ok p
  | none =>
    .error ("parsing time \"" ++ value ++ "\" as \"2006-01-02 15:04:05\": cannot parse")

end time

namespace cmd

/-- Go `parseEndDateTimeOption` of `cmd/githubsync.go`; `now` is the value of `time.Now()`.
The result is the pair `(string, error)`.  (The `fmt.Println` of the `h` branch writes to
the standard output and is left out.) -/
def parseEndDateTimeOption (now : time.Time) (end_ : String) : String × Option Error :=
  let end_ := strings.TrimSpace end_
  if end_ = "" then ("", none)
  else
    let unitAndNumber : String × String :=
      if strings.HasSuffix end_ "d" then ("d", (strings.CutSuffix end_ "d").1)
      else if strings.HasSuffix end_ "h" then ("h", (strings.CutSuffix end_ "h").1)
      else ("", "")
    let unit := unitAndNumber.1
    let numberPart := unitAndNumber.2
    let absolute : String × Option Error :=
      match time.Parse end_ with
      | .ok _ => (end_, none)
      | .error err => (end_, some err)
    match strconv.Atoi numberPart with
    | .ok number =>
      if unit ≠ "" then
        if unit = "d" then
          let endTime := now.Add (time.mulDuration (time.mulDuration number 24) time.Hour)
          (endTime.Format, none)
        else if unit = "h" then
          let endTime := now.Add (time.mulDuration number time.Hour)
          (endTime.Format, none)
        else absolute
      else absolute
    | .error _ => absolute

/-- The pattern `YYYY-MM-DD HH:MM:SS`: four digits, `-`, two digits, `-`, two digits, a
space, two digits, `:`, two digits, `:`, two digits, and nothing else. -/
def isCanonical (s : String) : Bool :=
  match s.data with
  | [y1, y2, y3, y4, a, m1, m2, b, d1, d2, c, h1, h2, e, n1, n2, f, s1, s2] =>
    [y1, y2, y3, y4, m1, m2, d1, d2, h1, h2, n1, n2, s1, s2].all
      (fun x => (strconv.digitValue x).isSome) &&
    a == '-' && b == '-' && c == ' ' && e == ':' && f == ':'
  | _ => false

/-- An expression that `parseEndDateTimeOption` resolves against `now`: it ends in `d` or
in `h` and what stands before parses as an integer. -/
def isRelative (e : String) : Bool :=
  (strings.HasSuffix e "d" && (strconv.Atoi (strings.CutSuffix e "d").1).toBool) ||
  (strings.HasSuffix e "h" && (strconv.Atoi (strings.CutSuffix e "h").1).toBool)

end cmd

/-! ### Query building: `FindAll` and `FindTrendingRepositories` -/

namespace database

/-- A Go value of type `any` handed to the store as a query argument: `nil`, a string or
an `int`. -/
inductive Any where
  | nil
  | str (s : String)
  | int (n : Int)
deriving DecidableEq, Repr

/-- The `*sql.Rows` of a query as the repositories read them: the outcome of `rows.Scan`
for each `rows.Next()`, and `rows.Err()`. -/
structure Rows (α : Type) where
  scans : List (Except Error α)
  err : Option Error

/-- The loop `for rows.Next()` with its `rows.Scan`: the rows scanned, or the first scan
error. -/
def scanAll {α : Type} : List (Except Error α) → List α → Except Error (List α)
  | [], acc => .ok acc
  | .ok a :: rest, acc => scanAll rest (acc ++ [a])
  | .error err :: _, _ => .error err

end database

namespace strings

/-- Go `strings.Join`. -/
def Join (elems : List String) (sep : String) : String :=
  match elems with
  | [] => ""
  | e :: rest => rest.foldl (fun acc x => acc ++ sep ++ x) e

/-- Go `strings.Contains`. -/
def Contains (s substr : String) : Bool :=
  s.data.tails.any (fun t => substr.data.isPrefixOf t)

/-- The number of `?` placeholders of a query text (Go `strings.Count(s, "?")`). -/
def countPlaceholders (s : String) : Nat := s.data.count '?'

end strings

namespace model

open database

/-- The query text and the argument list that `GhRepositoryRepo.FindAll` builds before it
calls `gr.db.QueryContext(ctx, query, args...)`. -/
def findAllQuery (start end_ : String) (limit : Int) : String × List Any :=
  let args : List Any := []
  let query := "select * from repositories"
  let criteria : List String := []
  let criteria1 := if start ≠ "" then criteria ++ ["updated_at > ?"] else criteria
  let args1 := if start ≠ "" then args ++ [Any.str start] else args
  let criteria2 := if end_ ≠ "" then criteria1 ++ ["updated_at <= ?"] else criteria1
  let args2 := if end_ ≠ "" then args1 ++ [Any.str end_] else args1
  let query1 :=
    if criteria2.length > 0 then query ++ " where " ++ strings.Join criteria2 " and "
    else query
  let query2 := if limit > 0 then query1 ++ " LIMIT ?" else query1
  let args3 := if limit > 0 then args2 ++ [Any.int limit] else args2
  (query2, args3)

/-- `GhRepositoryRepo.FindAll`; `QueryContext` is the store's `gr.db.QueryContext`.  The
result is the pair `([]GhRepository, error)`, a nil slice being the empty list. -/
def FindAll (QueryContext : String → List Any → Except Error (Rows GhRepository))
    (start end_ : String) (limit : Int) : List GhRepository × Option Error :=
  match QueryContext (findAllQuery start end_ limit).1 (findAllQuery start end_ limit).2 with
  | .error err => ([], some err)
  | .ok rows =>
    match scanAll rows.scans [] with
    | .error err => ([], some err)
    | .ok repositories =>
      match rows.err with
      | some err => (repositories, some err)
      | none => (repositories, none)

end model

namespace dbutils

open database

/-- Modelled from the spec: the "QuerySpec" state of `dbutils.QueryBuilder` (the package is
not among the sources): the base query text, the "ordered list of predicate fragments with
bound arguments", the "ordered list of `(column, direction)` ordering pairs", the
"optional grouping column" and the "optional limit". -/
structure QueryBuilder where
  query : String
  wheres : List (String × List Any)
  orderBys : List (String × String)
  groupBy : Option String
  limit : Option Int
deriving DecidableEq, Repr

namespace QueryBuilder

/-- Modelled from the spec: `qb.Query(text)`, the start of a query build: the state is
"created empty at query-build start" around the base text, whatever the builder held. -/
def Query (_qb : QueryBuilder) (query : String) : QueryBuilder :=
  { query := query, wheres := [], orderBys := [], groupBy := none, limit := none }

/-- Modelled from the spec: `Where(predicateText, args...)`.  The predicate is recorded after
those declared before ("append-only"), and the arguments of the call are its bound
arguments, as they are given and in their order. -/
def Where (qb : QueryBuilder) (predicateText : String) (args : List Any) : QueryBuilder :=
  { qb with wheres := qb.wheres ++ [(predicateText, args)] }

/-- Modelled from the spec: `OrderBy(column, direction)`: "calls accumulate an ordered list
of `(column, direction)` pairs". -/
def OrderBy (qb : QueryBuilder) (column direction : String) : QueryBuilder :=
  { qb with orderBys := qb.orderBys ++ [(column, direction)] }

/-- Modelled from the spec: `GroupBy(column)`, "a single grouping column". -/
def GroupBy (qb : QueryBuilder) (column : String) : QueryBuilder :=
  { qb with groupBy := some column }

/-- Modelled from the spec: `Limit(n)`. -/
def Limit (qb : QueryBuilder) (n : Int) : QueryBuilder :=
  { qb with limit := some n }

/-- Modelled from the spec: the argument list of the terminal "render": "predicate args
(declaration order) → limit value". -/
def argList (qb : QueryBuilder) : List Any :=
  (qb.wheres.map (fun w => w.2)).flatten ++
    (match qb.limit with
     | some n => [Any.int n]
     | none => [])

/-- Modelled from the spec: the text of the terminal "render": the predicates "combined
with logical AND ... in the exact order they were declared", the grouping "after
predicates, before ordering", the orderings "in call order", the limit "last".  (The SQL
keywords are not given by the spec.) -/
def queryText (qb : QueryBuilder) : String :=
  qb.query ++
    (if qb.wheres = [] then ""
     else " WHERE " ++ strings.Join (qb.wheres.map (fun w => w.1)) " AND ") ++
    (match qb.groupBy with
     | some column => " GROUP BY " ++ column
     | none => "") ++
    (if qb.orderBys = [] then ""
     else " ORDER BY " ++ strings.Join (qb.orderBys.map (fun o => o.1 ++ " " ++ o.2)) ", ") ++
    (match qb.limit with
     | some _ => " LIMIT ?"
     | none => "")

/-- Modelled from the spec: `qb.GetQuery()`, the terminal "render": "final query text plus
a flat, order-preserving argument list". -/
def GetQuery (qb : QueryBuilder) : String × List Any := (qb.queryText, qb.argList)

end QueryBuilder

end dbutils

namespace time

/-- Go `t.AddDate(0, 0, days)`: the same time of day on the clock of the location of `t`,
`days` calendar days later.
(The overflow of Go's day arithmetic for offsets of astronomic size is not modelled.) -/
def Time.AddDays (t : Time) (days : Int) : Time :=
  { sec := t.sec + days * 86400, nsec := t.nsec }

/-- Go `Time.Format` for the layout `"2006-01-02"`: the date that the clock of the
location of `t` shows (see `Time`). -/
def Time.FormatDate (t : Time) : String :=
  let yd := absYearDay (t.abs / 86400)
  let md := monthDay (isLeap yd.1) yd.2
  ⟨appendInt yd.1 4 ++ '-' :: appendInt md.1 2 ++ '-' :: appendInt md.2 2⟩

end time

namespace model

open database dbutils

/-- Go `model.TrendingRepositoryResponse`. -/
structure TrendingRepositoryResponse where
  GhRepository : GhRepository
  BestRanking : Int
  FeaturedCount : Int
deriving DecidableEq, Repr

/-- The builder calls of `GhRepositoryRepo.FindTrendingRepositories`, from `qb := gr.qb` to
`qb.GroupBy("repositories.id")`; `now` is the value of `time.Now()`. -/
def trendingQueryBuilder (qb : QueryBuilder) (now : time.Time) (language : String)
    (limit dataRange : Int) : QueryBuilder :=
  let lang := strings.TrimSpace language
  let query := "select repositories.*, count(*) as count, min(trending_repositories.`rank`) as best_ranking from repositories join trending_repositories on repositories.id = trending_repositories.repository_id"
  let qb := qb.Query query
  let qb := qb.OrderBy "count" "DESC"
  let qb := qb.OrderBy "best_ranking" "ASC"
  let qb := qb.OrderBy "repositories.id" "ASC"
  let qb :=
    if lang ≠ "" then qb.Where "`trending_repositories`.`language` = ?" [Any.str lang]
    else qb.Where "`trending_repositories`.`language` is null" [Any.nil]
  let qb :=
    if dataRange > 0 then
      let since := now.AddDays (-dataRange)
      qb.Where "`trending_repositories`.`trend_date` > ?" [Any.str since.FormatDate]
    else qb
  let qb := if limit > 0 then qb.Limit limit else qb
  qb.GroupBy "repositories.id"

/-- `GhRepositoryRepo.FindTrendingRepositories`; `QueryContext` is the store's
`gr.db.QueryContext`, `qb` the shared builder `gr.qb`. -/
def FindTrendingRepositories
    (QueryContext : String → List Any → Except Error (Rows TrendingRepositoryResponse))
    (qb : QueryBuilder) (now : time.Time) (language : String) (limit dataRange : Int) :
    List TrendingRepositoryResponse × Option Error :=
  let qa := (trendingQueryBuilder qb now language limit dataRange).GetQuery
  match QueryContext qa.1 qa.2 with
  | .error err => ([], some ("failed to query trending repositories: " ++ err))
  | .ok rows =>
    match scanAll rows.scans [] with
    | .error err => ([], some err)
    | .ok repositories =>
      match rows.err with
      | some err => ([], some err)
      | none => (repositories, none)

end model

/-! ## Theorems -/

open model scraper database

/-! ### The writes `Scrape` issues (C1, C2, C3) -/

namespace scraper

open model

theorem scrapeBody_writes {σ : Type} (gh : TrendingRepositoryRepo σ) (now : time.Time)
    (language : String) (m : RankedTrendingRepo) (st : LoopState σ) (index : Nat)
    (repo : String) :
    (scrapeBody gh now language m st index repo).writes
      = st.writes ++ [issuedWrite now language m index repo] := by
  cases h : m ((index : Int) + 1) with
  | none => simp [scrapeBody, issuedWrite, h]
  | some r => by_cases hn : r.RepoFullName = "" <;> simp [scrapeBody, issuedWrite, h, hn]

theorem scrapeLoop_writes {σ : Type} (gh : TrendingRepositoryRepo σ) (now : time.Time)
    (language : String) (m : RankedTrendingRepo) (repos : List String) :
    ∀ (index : Nat) (st : LoopState σ),
      (scrapeLoop gh now language m index repos st).writes
        = st.writes ++ issuedWrites now language m index repos := by
  induction repos with
  | nil => intro index st; simp [scrapeLoop, issuedWrites]
  | cons repo rest ih =>
    intro index st
    simp [scrapeLoop, issuedWrites, ih, scrapeBody_writes]

theorem issuedWrites_length (now : time.Time) (language : String) (m : RankedTrendingRepo)
    (repos : List String) :
    ∀ index : Nat, (issuedWrites now language m index repos).length = repos.length := by
  induction repos with
  | nil => intro index; simp [issuedWrites]
  | cons repo rest ih => intro index; simp [issuedWrites, ih]

theorem issuedWrites_getElem? (now : time.Time) (language : String) (m : RankedTrendingRepo)
    (repos : List String) :
    ∀ (index i : Nat), (issuedWrites now language m index repos)[i]?
        = (repos[i]?).map (issuedWrite now language m (index + i)) := by
  induction repos with
  | nil => intro index i; simp [issuedWrites]
  | cons repo rest ih =>
    intro index i
    cases i with
    | zero => simp [issuedWrites]
    | succ i =>
      simp only [issuedWrites, List.getElem?_cons_succ, ih]
      have : index + 1 + i = index + (i + 1) := by omega
      rw [this]

/-- Whatever the store answers, `Scrape` issues the writes `issuedWrites` of the fetched
map, one per snapshot position: no write is skipped after a failure. -/
theorem Scrape_writes {σ : Type} (gh : TrendingRepositoryRepo σ) (s : σ) (repos : List String)
    (now : time.Time) (language : String) (m : RankedTrendingRepo)
    (hm : gh.FindRankedTrendingRepoByDate s now language = .ok m) :
    (Scrape gh s repos now language).writes = issuedWrites now language m 0 repos := by
  simp [Scrape, hm, scrapeLoop_writes]

/-- A `Save` issued at position `j` carries the rank `j + 1`. -/
theorem issuedWrite_save_rank (now : time.Time) (language : String) (m : RankedTrendingRepo)
    (j : Nat) (repo : String) (r : TrendingRepository)
    (h : issuedWrite now language m j repo = Write.Save r) : r.Rank = (j : Int) + 1 := by
  unfold issuedWrite at h
  cases hm : m ((j : Int) + 1) with
  | none => rw [hm] at h; simp at h; rw [← h]
  | some x =>
    rw [hm] at h
    by_cases hn : x.RepoFullName = ""
    · simp [hn] at h; rw [← h]
    · simp [hn] at h

/-- C1 (evaluation at the failing input): the insert of rank 1 fails, yet `Scrape` goes on
to issue the insert of rank 2 and returns no error at all, because `err` is overwritten
by the later successful `Save`.  Likewise a failing `Update` of rank 1 is followed by the
insert of rank 2 and no error is returned, because the result of `Update` is dropped. -/
theorem C1_Scrape_not_fail_fast (now : time.Time) :
    (failsAtRankOne.Save () ⟨0, "a/b", ⟨"go", true⟩, now, now, 1⟩).2 = some "insert failed" ∧
    (Scrape failsAtRankOne () ["a/b", "c/d"] now "go").writes
      = [Write.Save ⟨0, "a/b", ⟨"go", true⟩, now, now, 1⟩,
         Write.Save ⟨0, "c/d", ⟨"go", true⟩, now, now, 2⟩] ∧
    (Scrape failsAtRankOne () ["a/b", "c/d"] now "go").err = none ∧
    (Scrape
        (failsOnUpdate (fun rank =>
          if rank = 1 then some ⟨7, "a/b", ⟨"go", true⟩, now, now, 1⟩ else none))
        () ["x/y", "c/d"] now "go").writes
      = [Write.Update ⟨7, "x/y", ⟨"go", true⟩, now, now, 1⟩,
         Write.Save ⟨0, "c/d", ⟨"go", true⟩, now, now, 2⟩] ∧
    (Scrape
        (failsOnUpdate (fun rank =>
          if rank = 1 then some ⟨7, "a/b", ⟨"go", true⟩, now, now, 1⟩ else none))
        () ["x/y", "c/d"] now "go").err = none := by
  refine ⟨by simp [failsAtRankOne], ?_, ?_, ?_, ?_⟩
  · simp [Scrape, failsAtRankOne, scrapeLoop, scrapeBody, languageColumn]; decide
  · simp [Scrape, failsAtRankOne, scrapeLoop, scrapeBody]
  · simp [Scrape, failsOnUpdate, scrapeLoop, scrapeBody, languageColumn]; decide
  · simp [Scrape, failsOnUpdate, scrapeLoop, scrapeBody]

/-- C2 (counterexample): rank 1 is a key of the fetched map, but its record has an empty
item key; `Scrape` of the snapshot `["a/b"]` issues a `Save` for rank 1 and no `Update`. -/
theorem C2_counterexample :
    (Scrape
        (fixedMapRepo (fun rank =>
          if rank = 1 then some ⟨7, "", ⟨"go", true⟩, ⟨1704844800, 0⟩, ⟨1704844800, 0⟩, 1⟩
          else none))
        () ["a/b"] ⟨1704844900, 0⟩ "go").writes
      = [Write.Save ⟨0, "a/b", ⟨"go", true⟩, ⟨1704844900, 0⟩, ⟨1704844900, 0⟩, 1⟩] := by
  decide

/-- C2 (amended): when rank `i + 1` is a key of the fetched map and the record found there
has a non-empty item key, the write of position `i` is an `Update` of that record with the
item key overwritten by `snapshot[i]` and `ScrapedAt`, `TrendDate` set to `now`, and no
`Save` of rank `i + 1` is issued at any position. -/
theorem C2_update_of_occupied_rank {σ : Type} (gh : TrendingRepositoryRepo σ) (s : σ)
    (repos : List String) (now : time.Time) (language : String) (m : RankedTrendingRepo)
    (hm : gh.FindRankedTrendingRepoByDate s now language = .ok m)
    (i : Nat) (repo : String) (hi : repos[i]? = some repo)
    (r : TrendingRepository) (hr : m ((i : Int) + 1) = some r) (hne : r.RepoFullName ≠ "") :
    (Scrape gh s repos now language).writes[i]?
      = some (Write.Update { r with RepoFullName := repo, ScrapedAt := now, TrendDate := now }) ∧
    ∀ (j : Nat) (x : TrendingRepository),
      (Scrape gh s repos now language).writes[j]? = some (Write.Save x) → x.Rank ≠ (i : Int) + 1 := by
  rw [Scrape_writes gh s repos now language m hm]
  constructor
  · rw [issuedWrites_getElem?, hi]
    simp [issuedWrite, hr, hne]
  · intro j x hj hrank
    rw [issuedWrites_getElem?] at hj
    cases hrj : repos[j]? with
    | none => simp [hrj] at hj
    | some repoj =>
      simp only [hrj, Option.map_some', Nat.zero_add, Option.some.injEq] at hj
      have h1 := issuedWrite_save_rank now language m j repoj x hj
      have hji : j = i := by omega
      subst hji
      simp [issuedWrite, hr, hne] at hj

/-- C2 (witness): the re-run of the specification, snapshot `["x/y", "c/d"]` over the stored
ranks 1 = `a/b` and 2 = `c/d`; rank 1 is updated to `x/y`. -/
theorem C2_update_of_occupied_rank_witness :
    (Scrape (tableRepo (fun _ => none))
        ⟨[⟨1, "a/b", ⟨"go", true⟩, ⟨1704844800, 0⟩, ⟨1704844800, 0⟩, 1⟩,
          ⟨2, "c/d", ⟨"go", true⟩, ⟨1704844800, 0⟩, ⟨1704844800, 0⟩, 2⟩], 0⟩
        ["x/y", "c/d"] ⟨1704844900, 0⟩ "go").writes[0]?
      = some (Write.Update ⟨1, "x/y", ⟨"go", true⟩, ⟨1704844900, 0⟩, ⟨1704844900, 0⟩, 1⟩) ∧
    ∀ (j : Nat) (x : TrendingRepository),
      (Scrape (tableRepo (fun _ => none))
        ⟨[⟨1, "a/b", ⟨"go", true⟩, ⟨1704844800, 0⟩, ⟨1704844800, 0⟩, 1⟩,
          ⟨2, "c/d", ⟨"go", true⟩, ⟨1704844800, 0⟩, ⟨1704844800, 0⟩, 2⟩], 0⟩
        ["x/y", "c/d"] ⟨1704844900, 0⟩ "go").writes[j]? = some (Write.Save x) →
      x.Rank ≠ ((0 : Nat) : Int) + 1 :=
  C2_update_of_occupied_rank (tableRepo (fun _ => none))
    ⟨[⟨1, "a/b", ⟨"go", true⟩, ⟨1704844800, 0⟩, ⟨1704844800, 0⟩, 1⟩,
      ⟨2, "c/d", ⟨"go", true⟩, ⟨1704844800, 0⟩, ⟨1704844800, 0⟩, 2⟩], 0⟩
    ["x/y", "c/d"] ⟨1704844900, 0⟩ "go" _ rfl 0 "x/y" rfl
    ⟨1, "a/b", ⟨"go", true⟩, ⟨1704844800, 0⟩, ⟨1704844800, 0⟩, 1⟩ (by decide) (by decide)

/-- C3: when rank `i + 1` is not a key of the fetched map, the write of position `i` is a
`Save` of a new record with rank `i + 1`, item key `snapshot[i]`, `ScrapedAt` and
`TrendDate` equal to `now`; no other position issues a `Save` of that rank; and from the
empty table the snapshot `["a/b", "c/d"]` leaves exactly the two records rank 1 = `a/b`,
rank 2 = `c/d`. -/
theorem C3_save_of_free_rank {σ : Type} (gh : TrendingRepositoryRepo σ) (s : σ)
    (repos : List String) (now : time.Time) (language : String) (m : RankedTrendingRepo)
    (hm : gh.FindRankedTrendingRepoByDate s now language = .ok m)
    (i : Nat) (repo : String) (hi : repos[i]? = some repo)
    (hfree : m ((i : Int) + 1) = none) :
    (Scrape gh s repos now language).writes[i]?
      = some (Write.Save { Id := 0, RepoFullName := repo, Language := languageColumn language,
                           ScrapedAt := now, TrendDate := now, Rank := (i : Int) + 1 }) ∧
    (∀ (j : Nat) (x : TrendingRepository),
      (Scrape gh s repos now language).writes[j]? = some (Write.Save x) →
      x.Rank = (i : Int) + 1 → j = i) ∧
    (Scrape gh s repos now language).writes.length = repos.length ∧
    (Scrape (tableRepo (fun _ => none)) ⟨[], 0⟩ ["a/b", "c/d"] now "go").store.rows
      = [⟨1, "a/b", ⟨"go", true⟩, now, now, 1⟩, ⟨2, "c/d", ⟨"go", true⟩, now, now, 2⟩] := by
  rw [Scrape_writes gh s repos now language m hm]
  refine ⟨?_, ?_, ?_, ?_⟩
  · rw [issuedWrites_getElem?, hi]
    simp [issuedWrite, hfree]
  · intro j x hj hrank
    rw [issuedWrites_getElem?] at hj
    cases hrj : repos[j]? with
    | none => simp [hrj] at hj
    | some repoj =>
      simp only [hrj, Option.map_some', Nat.zero_add, Option.some.injEq] at hj
      have h1 := issuedWrite_save_rank now language m j repoj x hj
      omega
  · exact issuedWrites_length now language m repos 0
  · simp [Scrape, tableRepo, findRanked, scrapeLoop, scrapeBody, languageColumn, nextId]
    decide

/-- C3 (witness): the empty table and the snapshot `["a/b", "c/d"]`, position 1. -/
theorem C3_save_of_free_rank_witness :
    (Scrape (tableRepo (fun _ => none)) ⟨[], 0⟩ ["a/b", "c/d"] ⟨1704844800, 0⟩ "go").writes[1]?
      = some (Write.Save ⟨0, "c/d", ⟨"go", true⟩, ⟨1704844800, 0⟩, ⟨1704844800, 0⟩, 2⟩) :=
  (C3_save_of_free_rank (tableRepo (fun _ => none)) ⟨[], 0⟩ ["a/b", "c/d"] ⟨1704844800, 0⟩ "go"
    _ rfl 1 "c/d" rfl (by decide)).1

end scraper

/-! ### `Scrape` over the trending table (C4, C5) -/

namespace model

theorem findRanked_append_singleton (rows : List TrendingRepository) (r : TrendingRepository)
    (date : time.Time) (language : String) (k : Int) :
    findRanked (rows ++ [r]) date language k
      = if inWindow date language r = true ∧ r.Rank = k then some r
        else findRanked rows date language k := by
  simp only [findRanked, List.reverse_append, List.reverse_cons, List.reverse_nil, List.nil_append,
    List.singleton_append, List.find?_cons]
  by_cases h : inWindow date language r = true ∧ r.Rank = k
  · simp [h.1, h.2]
  · rw [if_neg h]
    have : (inWindow date language r && decide (r.Rank = k)) = false := by
      simpa using h
    rw [this]

theorem findRanked_some {rows : List TrendingRepository} {date : time.Time} {language : String}
    {k : Int} {x : TrendingRepository} (h : findRanked rows date language k = some x) :
    x ∈ rows ∧ inWindow date language x = true ∧ x.Rank = k := by
  unfold findRanked at h
  have h1 := List.mem_of_find?_eq_some h
  have h2 := List.find?_some h
  simp at h1 h2
  exact ⟨h1, h2.1, h2.2⟩

theorem findRanked_none {rows : List TrendingRepository} {date : time.Time} {language : String}
    {k : Int} (h : findRanked rows date language k = none) :
    ∀ z ∈ rows, inWindow date language z = true → z.Rank ≠ k := by
  unfold findRanked at h
  rw [List.find?_eq_none] at h
  intro z hz hw hk
  have := h z (by simpa using hz)
  simp [hw, hk] at this

theorem inWindow_of_slot {date : time.Time} {language : String} {a b : TrendingRepository}
    (h : slot a = slot b) : inWindow date language a = inWindow date language b := by
  simp only [slot, Prod.mk.injEq] at h
  simp [inWindow, h.1, h.2.1]

theorem find?_congr_on {α : Type} (p q : α → Bool) :
    ∀ (l : List α), (∀ z ∈ l, p z = q z) → l.find? p = l.find? q
  | [], _ => rfl
  | a :: l, h => by
    have ha : p a = q a := h a (List.mem_cons_self a l)
    have hl := find?_congr_on p q l (fun z hz => h z (List.mem_cons_of_mem a hz))
    simp [List.find?_cons, ha, hl]

theorem findRanked_map (rows : List TrendingRepository) (f : TrendingRepository → TrendingRepository)
    (hf : ∀ z ∈ rows, slot (f z) = slot z) (date : time.Time) (language : String) (k : Int) :
    findRanked (rows.map f) date language k = (findRanked rows date language k).map f := by
  unfold findRanked
  rw [← List.map_reverse, List.find?_map]
  congr 1
  apply find?_congr_on
  intro z hz
  have hz' : z ∈ rows := by simpa using hz
  have hs := hf z hz'
  have hr : (f z).Rank = z.Rank := by
    have := congrArg (fun t => t.2.2) hs
    simpa [slot] using this
  simp [Function.comp, inWindow_of_slot hs, hr]


theorem lt_nextId (rows : List TrendingRepository) : ∀ z ∈ rows, z.Id < nextId rows := by
  induction rows with
  | nil => intro z hz; cases hz
  | cons a rows ih =>
    intro z hz
    simp only [nextId, List.map_cons, List.foldr_cons] at ih ⊢
    rcases List.mem_cons.1 hz with h | h
    · subst h; have := le_max_left z.Id (List.foldr max 0 (List.map (fun r => r.Id) rows)); omega
    · have := ih z h
      have := le_max_right a.Id (List.foldr max 0 (List.map (fun r => r.Id) rows)); omega

theorem IdsUnique_append (rows : List TrendingRepository) (r : TrendingRepository)
    (h : IdsUnique rows) : IdsUnique (rows ++ [{ r with Id := nextId rows }]) := by
  unfold IdsUnique at *
  rw [List.map_append, List.nodup_append]
  refine ⟨h, by simp, ?_⟩
  intro a ha hb
  simp at hb
  simp only [List.mem_map] at ha
  obtain ⟨z, hz, hza⟩ := ha
  have := lt_nextId rows z hz
  omega

/-- Rewriting the row of key `x.Id` by a record of the same key and slot keeps every slot. -/
theorem update_slot (rows : List TrendingRepository) (x x1 : TrendingRepository)
    (hids : IdsUnique rows) (hx : x ∈ rows) (hid : x1.Id = x.Id) (hslot : slot x1 = slot x) :
    ∀ z ∈ rows, slot (if z.Id = x1.Id then x1 else z) = slot z := by
  intro z hz
  by_cases h : z.Id = x1.Id
  · have hzx : z = x := List.inj_on_of_nodup_map hids hz hx (by simp [h, hid])
    rw [if_pos h, hslot, hzx]
  · rw [if_neg h]

theorem update_ids (rows : List TrendingRepository) (x1 : TrendingRepository) :
    (rows.map (fun y => if y.Id = x1.Id then x1 else y)).map (fun r => r.Id)
      = rows.map (fun r => r.Id) := by
  rw [List.map_map]
  apply List.map_congr_left
  intro z _
  by_cases h : z.Id = x1.Id <;> simp [h]

end model

namespace scraper

/-- The rows of the table after one turn of the loop: unchanged when the write fails, else
the issued write applied. -/
theorem scrapeBody_table_rows (faults : Nat → Option Error) (now : time.Time) (language : String)
    (m : RankedTrendingRepo) (st : LoopState TrendingTable) (j : Nat) (repo : String) :
    (scrapeBody (tableRepo faults) now language m st j repo).store.rows
      = if (faults st.store.calls).isSome then st.store.rows
        else applyWrite st.store.rows (issuedWrite now language m j repo) := by
  cases hf : faults st.store.calls <;> cases h : m ((j : Int) + 1) with
  | none => simp [scrapeBody, issuedWrite, h, tableRepo, hf, applyWrite]
  | some r =>
    by_cases hn : r.RepoFullName = "" <;>
      simp [scrapeBody, issuedWrite, h, hn, tableRepo, hf, applyWrite]

/-- One write of the loop, applied to the table: the invariants it keeps. -/
theorem applyWrite_issued (now : time.Time) (language : String) (m : RankedTrendingRepo)
    (rows : List TrendingRepository) (j : Nat) (repo : String)
    (hids : IdsUnique rows)
    (hm : ∀ k : Int, (j : Int) < k → findRanked rows now language k = m k) :
    StepKeeps now language m rows j repo
      (applyWrite rows (issuedWrite now language m j repo)) := by
  have hj := hm ((j : Int) + 1) (by omega)
  -- the insert of a new record of rank `j + 1`
  have hsave : ∀ (hfree : (∀ k x, m k = some x → x.RepoFullName ≠ "") → m ((j : Int) + 1) = none),
      issuedWrite now language m j repo
        = Write.Save ⟨0, repo, languageColumn language, now, now, (j : Int) + 1⟩ →
      StepKeeps now language m rows j repo
        (applyWrite rows (issuedWrite now language m j repo)) := by
    intro hfree hw
    unfold StepKeeps
    rw [hw]
    simp only [applyWrite]
    have hwin : inWindow now language
        ⟨nextId rows, repo, languageColumn language, now, now, (j : Int) + 1⟩ = true := by
      simp [inWindow]
    refine ⟨IdsUnique_append rows ⟨0, repo, languageColumn language, now, now, (j : Int) + 1⟩ hids,
      ?_, ?_, ?_, ?_⟩
    · intro k hk
      rw [findRanked_append_singleton, if_neg]
      simp only [not_and]
      intro _ h
      exact hk h.symm
    · refine ⟨⟨nextId rows, repo, languageColumn language, now, now, (j : Int) + 1⟩, ?_, rfl⟩
      rw [findRanked_append_singleton, if_pos ⟨hwin, rfl⟩]
    · intro hne hs
      have hnone : findRanked rows now language ((j : Int) + 1) = none := by
        rw [hj]; exact hfree hne
      unfold SlotsUnique at *
      rw [List.map_append, List.nodup_append]
      refine ⟨hs, by simp, ?_⟩
      intro a ha hb
      simp only [List.map_cons, List.map_nil, List.mem_singleton] at hb
      simp only [List.mem_map] at ha
      obtain ⟨z, hz, hza⟩ := ha
      have hzs : slot z = slot (⟨nextId rows, repo, languageColumn language, now, now,
          (j : Int) + 1⟩ : TrendingRepository) := by rw [hza, hb]
      have h1 : inWindow now language z = true := by rw [inWindow_of_slot hzs]; exact hwin
      have h2 : z.Rank = (j : Int) + 1 := by
        have := congrArg (fun t => t.2.2) hzs
        simpa [slot] using this
      exact findRanked_none hnone z hz h1 h2
    · rintro ⟨x, hx, hxne⟩
      exact absurd hw (by simp [issuedWrite, hx, hxne])
  cases h : m ((j : Int) + 1) with
  | none =>
    exact (hsave (fun _ => h) (by simp [issuedWrite, h]))
  | some x =>
    by_cases hn : x.RepoFullName = ""
    · exact hsave (fun hne => absurd hn (hne _ _ h)) (by simp [issuedWrite, h, hn])
    · have hw : issuedWrite now language m j repo
          = Write.Update { x with RepoFullName := repo, ScrapedAt := now, TrendDate := now } := by
        simp [issuedWrite, h, hn]
      unfold StepKeeps
      rw [hw]
      simp only [applyWrite]
      rw [h] at hj
      obtain ⟨hxmem, hxwin, hxrank⟩ := findRanked_some hj
      have hday : dayOf x.TrendDate = dayOf now := by
        simp [inWindow] at hxwin; exact hxwin.1
      have hslot := update_slot rows x
        { x with RepoFullName := repo, ScrapedAt := now, TrendDate := now } hids hxmem rfl
        (by simp [slot, hday])
      have hfix : ∀ z ∈ rows, z.Rank ≠ (j : Int) + 1 →
          (if z.Id = x.Id then
            ({ x with RepoFullName := repo, ScrapedAt := now, TrendDate := now } : TrendingRepository)
           else z) = z := by
        intro z hz hzr
        have : z.Id ≠ x.Id := by
          intro hid
          have hzx : z = x := List.inj_on_of_nodup_map hids hz hxmem hid
          rw [hzx] at hzr
          exact hzr hxrank
        rw [if_neg this]
      refine ⟨?_, ?_, ?_, ?_, ?_⟩
      · unfold IdsUnique
        rw [update_ids rows { x with RepoFullName := repo, ScrapedAt := now, TrendDate := now }]
        exact hids
      · intro k hk
        rw [findRanked_map rows _ hslot]
        cases hz : findRanked rows now language k with
        | none => rfl
        | some z =>
          obtain ⟨hzmem, _, hzrank⟩ := findRanked_some hz
          simp only [Option.map_some', Option.some.injEq]
          exact hfix z hzmem (by rw [hzrank]; exact hk)
      · refine ⟨{ x with RepoFullName := repo, ScrapedAt := now, TrendDate := now }, ?_, rfl⟩
        rw [findRanked_map rows _ hslot, hj]
        simp
      · intro _ hs
        unfold SlotsUnique at *
        rw [List.map_map]
        have : List.map (slot ∘ fun y => if y.Id = x.Id then
            ({ x with RepoFullName := repo, ScrapedAt := now, TrendDate := now } : TrendingRepository)
            else y) rows = List.map slot rows := by
          apply List.map_congr_left
          intro z hz
          exact hslot z hz
        rw [this]; exact hs
      · intro _
        simp

/-- The window of a date depends on its calendar day only. -/
theorem findRanked_congr_day (rows : List TrendingRepository) (d1 d2 : time.Time)
    (language : String) (h : dayOf d1 = dayOf d2) :
    findRanked rows d1 language = findRanked rows d2 language := by
  funext k
  simp [findRanked, inWindow, h]

/-- The loop over the table keeps distinct keys, and distinct rank slots when no record of
the fetched map has an empty item key; writes may fail. -/
theorem scrapeLoop_table_slots (faults : Nat → Option Error) (now : time.Time)
    (language : String) (m : RankedTrendingRepo)
    (hne : ∀ k x, m k = some x → x.RepoFullName ≠ "") :
    ∀ (rest : List String) (index : Nat) (st : LoopState TrendingTable),
      IdsUnique st.store.rows →
      (∀ k : Int, (index : Int) < k → findRanked st.store.rows now language k = m k) →
      SlotsUnique st.store.rows →
      SlotsUnique (scrapeLoop (tableRepo faults) now language m index rest st).store.rows := by
  intro rest
  induction rest with
  | nil => intro index st _ _ hs; exact hs
  | cons repo rest ih =>
    intro index st hids hm hs
    simp only [scrapeLoop]
    have hstep := applyWrite_issued now language m st.store.rows index repo hids hm
    have hrows := scrapeBody_table_rows faults now language m st index repo
    cases hf : (faults st.store.calls).isSome with
    | true =>
      rw [hf, if_pos rfl] at hrows
      apply ih
      · rw [hrows]; exact hids
      · intro k hk; rw [hrows]; exact hm k (by push_cast at hk; omega)
      · rw [hrows]; exact hs
    | false =>
      rw [hf] at hrows
      simp only [Bool.false_eq_true, if_false] at hrows
      obtain ⟨h1, h2, _, h4, _⟩ := hstep
      apply ih
      · rw [hrows]; exact h1
      · intro k hk
        rw [hrows, h2 k (by push_cast at hk; omega)]
        exact hm k (by push_cast at hk; omega)
      · rw [hrows]; exact h4 hne hs

/-- The loop over a table whose writes succeed: what it leaves under each rank. -/
theorem scrapeLoop_table_keys (now : time.Time) (language : String) (m : RankedTrendingRepo) :
    ∀ (rest : List String) (index : Nat) (st : LoopState TrendingTable),
      IdsUnique st.store.rows →
      (∀ k : Int, (index : Int) < k → findRanked st.store.rows now language k = m k) →
      IdsUnique (scrapeLoop (tableRepo (fun _ => none)) now language m index rest st).store.rows ∧
      (∀ k : Int, k ≤ (index : Int) →
        findRanked (scrapeLoop (tableRepo (fun _ => none)) now language m index rest st).store.rows
          now language k = findRanked st.store.rows now language k) ∧
      (∀ (i : Nat) (repo : String), rest[i]? = some repo →
        ∃ y, findRanked
            (scrapeLoop (tableRepo (fun _ => none)) now language m index rest st).store.rows
            now language ((index : Int) + i + 1) = some y ∧ y.RepoFullName = repo) ∧
      (∀ k : Int, (index : Int) + rest.length < k →
        findRanked (scrapeLoop (tableRepo (fun _ => none)) now language m index rest st).store.rows
          now language k = m k) ∧
      ((∀ (i : Nat) (repo : String), rest[i]? = some repo →
          ∃ x, m ((index : Int) + i + 1) = some x ∧ x.RepoFullName ≠ "") →
        (scrapeLoop (tableRepo (fun _ => none)) now language m index rest st).store.rows.length
          = st.store.rows.length) := by
  intro rest
  induction rest with
  | nil =>
    intro index st hids hm
    refine ⟨hids, fun _ _ => rfl, ?_, ?_, fun _ => rfl⟩
    · intro i repo h; simp at h
    · intro k hk; exact hm k (by simpa using hk)
  | cons repo rest ih =>
    intro index st hids hm
    simp only [scrapeLoop]
    have hrows := scrapeBody_table_rows (fun _ => none) now language m st index repo
    simp only [Option.isSome_none, Bool.false_eq_true, if_false] at hrows
    obtain ⟨h1, h2, h3, _, h5⟩ := applyWrite_issued now language m st.store.rows index repo hids hm
    rw [← hrows] at h1 h2 h3 h5
    have hm1 : ∀ k : Int, ((index + 1 : Nat) : Int) < k →
        findRanked (scrapeBody (tableRepo (fun _ => none)) now language m st index repo).store.rows
          now language k = m k := by
      intro k hk
      rw [h2 k (by push_cast at hk; omega)]
      exact hm k (by push_cast at hk; omega)
    obtain ⟨i1, i2, i3, i4, i5⟩ := ih (index + 1) _ h1 hm1
    refine ⟨i1, ?_, ?_, ?_, ?_⟩
    · intro k hk
      rw [i2 k (by push_cast; omega), h2 k (by omega)]
    · intro i r hi
      cases i with
      | zero =>
        simp only [List.getElem?_cons_zero, Option.some.injEq] at hi
        subst hi
        obtain ⟨y, hy, hyn⟩ := h3
        refine ⟨y, ?_, hyn⟩
        rw [← hy]
        have := i2 ((index : Int) + 1) (by push_cast; omega)
        simpa using this
      | succ i =>
        simp only [List.getElem?_cons_succ] at hi
        obtain ⟨y, hy, hyn⟩ := i3 i r hi
        refine ⟨y, ?_, hyn⟩
        rw [← hy]
        congr 1
        push_cast
        omega
    · intro k hk
      apply i4
      simp only [List.length_cons] at hk
      push_cast at hk ⊢
      omega
    · intro hall
      rw [i5, h5]
      · have := hall 0 repo (by simp)
        simpa using this
      · intro i r hi
        have := hall (i + 1) r (by simpa using hi)
        obtain ⟨x, hx, hxn⟩ := this
        refine ⟨x, ?_, hxn⟩
        rw [← hx]
        congr 1
        push_cast
        omega

/-- C4 (counterexample): the snapshot `[""]` (one item whose key is the empty string) on the
empty table.  The first run stores one record of rank 1; the second run finds it, takes its
empty item key for "no record", issues a `Save` and leaves two records of rank 1. -/
theorem C4_counterexample :
    (Scrape (tableRepo (fun _ => none)) ⟨[], 0⟩ [""] ⟨1704844800, 0⟩ "go").store.rows
      = [⟨1, "", ⟨"go", true⟩, ⟨1704844800, 0⟩, ⟨1704844800, 0⟩, 1⟩] ∧
    (Scrape (tableRepo (fun _ => none))
        (Scrape (tableRepo (fun _ => none)) ⟨[], 0⟩ [""] ⟨1704844800, 0⟩ "go").store
        [""] ⟨1704844800, 0⟩ "go").writes
      = [Write.Save ⟨0, "", ⟨"go", true⟩, ⟨1704844800, 0⟩, ⟨1704844800, 0⟩, 1⟩] ∧
    (Scrape (tableRepo (fun _ => none))
        (Scrape (tableRepo (fun _ => none)) ⟨[], 0⟩ [""] ⟨1704844800, 0⟩ "go").store
        [""] ⟨1704844800, 0⟩ "go").store.rows
      = [⟨1, "", ⟨"go", true⟩, ⟨1704844800, 0⟩, ⟨1704844800, 0⟩, 1⟩,
         ⟨2, "", ⟨"go", true⟩, ⟨1704844800, 0⟩, ⟨1704844800, 0⟩, 1⟩] := by
  decide

/-- C4 (amended): for a snapshot whose item keys are all non-empty, a table with distinct
storage keys and writes that succeed, and two runs on the same day and language: the second
run issues only `Update`s, leaves the number of records unchanged, and leaves the
rank-to-itemKey mapping of the day and language as the first run left it. -/
theorem C4_idempotent (rows : List TrendingRepository) (calls : Nat) (repos : List String)
    (now1 now2 : time.Time) (language : String)
    (hids : IdsUnique rows) (hkeys : ∀ repo ∈ repos, repo ≠ "")
    (hday : dayOf now2 = dayOf now1) :
    (∀ w ∈ (Scrape (tableRepo (fun _ => none))
          (Scrape (tableRepo (fun _ => none)) ⟨rows, calls⟩ repos now1 language).store
          repos now2 language).writes, ∃ r, w = Write.Update r) ∧
    (Scrape (tableRepo (fun _ => none))
        (Scrape (tableRepo (fun _ => none)) ⟨rows, calls⟩ repos now1 language).store
        repos now2 language).store.rows.length
      = (Scrape (tableRepo (fun _ => none)) ⟨rows, calls⟩ repos now1 language).store.rows.length ∧
    rankToItemKey (Scrape (tableRepo (fun _ => none))
        (Scrape (tableRepo (fun _ => none)) ⟨rows, calls⟩ repos now1 language).store
        repos now2 language).store.rows now2 language
      = rankToItemKey
          (Scrape (tableRepo (fun _ => none)) ⟨rows, calls⟩ repos now1 language).store.rows
          now1 language := by
  -- the first run
  obtain ⟨a1, _, a3, _, _⟩ := scrapeLoop_table_keys now1 language (findRanked rows now1 language)
    repos 0 ⟨⟨rows, calls⟩, none, []⟩ hids (fun _ _ => rfl)
  have hrun1 : Scrape (tableRepo (fun _ => none)) ⟨rows, calls⟩ repos now1 language
      = scrapeLoop (tableRepo (fun _ => none)) now1 language (findRanked rows now1 language) 0
          repos ⟨⟨rows, calls⟩, none, []⟩ := by
    simp [Scrape, tableRepo]
  rw [← hrun1] at a1 a3
  generalize (Scrape (tableRepo (fun _ => none)) ⟨rows, calls⟩ repos now1 language).store = t1
    at a1 a3 ⊢
  rw [findRanked_congr_day t1.rows now1 now2 language hday.symm] at a3
  -- the second run
  have hocc : ∀ (i : Nat) (repo : String), repos[i]? = some repo →
      ∃ x, findRanked t1.rows now2 language (((0 : Nat) : Int) + i + 1) = some x ∧
        x.RepoFullName ≠ "" := by
    intro i repo hi
    obtain ⟨y, hy, hyn⟩ := a3 i repo hi
    refine ⟨y, hy, ?_⟩
    rw [hyn]
    exact hkeys repo (List.getElem?_mem hi)
  obtain ⟨_, b2, b3, b4, b5⟩ := scrapeLoop_table_keys now2 language
    (findRanked t1.rows now2 language) repos 0 ⟨t1, none, []⟩ a1 (fun _ _ => rfl)
  have hrun2 : Scrape (tableRepo (fun _ => none)) t1 repos now2 language
      = scrapeLoop (tableRepo (fun _ => none)) now2 language (findRanked t1.rows now2 language) 0
          repos ⟨t1, none, []⟩ := by
    simp [Scrape, tableRepo]
  rw [← hrun2] at b2 b3 b4 b5
  refine ⟨?_, b5 hocc, ?_⟩
  · intro w hw
    rw [Scrape_writes (tableRepo (fun _ => none)) t1 repos now2 language
      (findRanked t1.rows now2 language) rfl] at hw
    obtain ⟨i, hi⟩ := List.mem_iff_getElem?.1 hw
    rw [issuedWrites_getElem?] at hi
    cases hr : repos[i]? with
    | none => simp [hr] at hi
    | some repo =>
      obtain ⟨x, hx, hxn⟩ := hocc i repo hr
      simp only [hr, Option.map_some', Nat.zero_add, Option.some.injEq] at hi
      have hx' : findRanked t1.rows now2 language ((i : Int) + 1) = some x := by
        simpa using hx
      refine ⟨{ x with RepoFullName := repo, ScrapedAt := now2, TrendDate := now2 }, ?_⟩
      rw [← hi]
      simp [issuedWrite, hx', hxn]
  · funext k
    unfold rankToItemKey
    rw [findRanked_congr_day _ now1 now2 language hday.symm]
    by_cases hk0 : k ≤ 0
    · rw [b2 k (by simpa using hk0)]
    · by_cases hk1 : (repos.length : Int) < k
      · rw [b4 k (by simpa using hk1)]
      · have hi : (k - 1).toNat < repos.length := by omega
        have hget : repos[(k - 1).toNat]? = some (repos[(k - 1).toNat]) :=
          List.getElem?_eq_getElem hi
        have hk : ((0 : Nat) : Int) + ((k - 1).toNat : Int) + 1 = k := by omega
        obtain ⟨y1, hy1, hn1⟩ := a3 _ _ hget
        obtain ⟨y2, hy2, hn2⟩ := b3 _ _ hget
        rw [hk] at hy1 hy2
        rw [hy1, hy2]
        simp [hn1, hn2]

/-- C5 (counterexample): a table with one record, of rank 1 and with an empty item key (so no
two records share a slot); `Scrape` of `["a/b"]` on the same day returns no error and leaves
two records in the slot of rank 1. -/
theorem C5_counterexample :
    SlotsUnique [⟨1, "", ⟨"go", true⟩, ⟨1704844800, 0⟩, ⟨1704844800, 0⟩, 1⟩] ∧
    (Scrape (tableRepo (fun _ => none))
        ⟨[⟨1, "", ⟨"go", true⟩, ⟨1704844800, 0⟩, ⟨1704844800, 0⟩, 1⟩], 0⟩
        ["a/b"] ⟨1704844900, 0⟩ "go").err = none ∧
    ¬ SlotsUnique (Scrape (tableRepo (fun _ => none))
        ⟨[⟨1, "", ⟨"go", true⟩, ⟨1704844800, 0⟩, ⟨1704844800, 0⟩, 1⟩], 0⟩
        ["a/b"] ⟨1704844900, 0⟩ "go").store.rows := by
  unfold SlotsUnique
  decide

/-- C5 (amended): on a table with distinct storage keys, in which no two records share
`(trendDate, language, rank)` and no record of the scraped day and language has an empty
item key, `Scrape` of any snapshot leaves a table in which no two records share
`(trendDate, language, rank)`, whichever writes fail and whether or not an error is
returned. -/
theorem C5_slots_unique (faults : Nat → Option Error) (rows : List TrendingRepository)
    (calls : Nat) (repos : List String) (now : time.Time) (language : String)
    (hids : IdsUnique rows) (hslots : SlotsUnique rows)
    (hkeys : ∀ r ∈ rows, inWindow now language r = true → r.RepoFullName ≠ "") :
    SlotsUnique (Scrape (tableRepo faults) ⟨rows, calls⟩ repos now language).store.rows := by
  have hrun : Scrape (tableRepo faults) ⟨rows, calls⟩ repos now language
      = scrapeLoop (tableRepo faults) now language (findRanked rows now language) 0
          repos ⟨⟨rows, calls⟩, none, []⟩ := by
    simp [Scrape, tableRepo]
  rw [hrun]
  apply scrapeLoop_table_slots faults now language (findRanked rows now language)
  · intro k x hx
    obtain ⟨hmem, hwin, _⟩ := findRanked_some hx
    exact hkeys x hmem hwin
  · exact hids
  · intro _ _; rfl
  · exact hslots

/-- C4 (witness): the snapshot `["a/b", "c/d"]` run twice on the empty table, one minute
apart. -/
theorem C4_idempotent_witness :
    IdsUnique [] ∧ (∀ repo ∈ ["a/b", "c/d"], repo ≠ "") ∧
    dayOf ⟨1704844860, 0⟩ = dayOf ⟨1704844800, 0⟩ ∧
    rankToItemKey (Scrape (tableRepo (fun _ => none))
        (Scrape (tableRepo (fun _ => none)) ⟨[], 0⟩ ["a/b", "c/d"] ⟨1704844800, 0⟩ "go").store
        ["a/b", "c/d"] ⟨1704844860, 0⟩ "go").store.rows ⟨1704844860, 0⟩ "go"
      = rankToItemKey
          (Scrape (tableRepo (fun _ => none)) ⟨[], 0⟩ ["a/b", "c/d"] ⟨1704844800, 0⟩ "go").store.rows
          ⟨1704844800, 0⟩ "go" :=
  ⟨by unfold IdsUnique; decide, by decide, by decide,
   (C4_idempotent [] 0 ["a/b", "c/d"] ⟨1704844800, 0⟩ ⟨1704844860, 0⟩ "go"
      (by unfold IdsUnique; decide) (by decide) (by decide)).2.2⟩

/-- C5 (witness): ranks 1 and 2 stored, the snapshot `["x/y", "c/d", "e/f"]`, and the second
write failing. -/
theorem C5_slots_unique_witness :
    SlotsUnique (Scrape (tableRepo (fun n => if n = 1 then some "write failed" else none))
      ⟨[⟨1, "a/b", ⟨"go", true⟩, ⟨1704844800, 0⟩, ⟨1704844800, 0⟩, 1⟩,
        ⟨2, "c/d", ⟨"go", true⟩, ⟨1704844800, 0⟩, ⟨1704844800, 0⟩, 2⟩], 0⟩
      ["x/y", "c/d", "e/f"] ⟨1704844900, 0⟩ "go").store.rows :=
  C5_slots_unique (fun n => if n = 1 then some "write failed" else none)
    [⟨1, "a/b", ⟨"go", true⟩, ⟨1704844800, 0⟩, ⟨1704844800, 0⟩, 1⟩,
     ⟨2, "c/d", ⟨"go", true⟩, ⟨1704844800, 0⟩, ⟨1704844800, 0⟩, 2⟩] 0
    ["x/y", "c/d", "e/f"] ⟨1704844900, 0⟩ "go"
    (by unfold IdsUnique; decide) (by unfold SlotsUnique; decide) (by decide)

end scraper

/-! ### `SaveTags` (C6) -/

namespace model

/-- The insert loop leaves the committed rows alone and, when it ends without error, has
appended one pending row per tag. -/
theorem saveTagsLoop_spec (faults : Nat → Option Error) (ghRepo : GhRepository) :
    ∀ (tags : List Tag) (tx : Tx),
      (saveTagsLoop faults ghRepo tags tx).1.committed = tx.committed ∧
      ((saveTagsLoop faults ghRepo tags tx).2 = none →
        (saveTagsLoop faults ghRepo tags tx).1.pending
          = tx.pending ++ tags.map (fun tag => (ghRepo.Id, tag.Id))) := by
  intro tags
  induction tags with
  | nil => intro tx; simp [saveTagsLoop]
  | cons tag rest ih =>
    intro tx
    simp only [saveTagsLoop, Tx.ExecInsert, Tx.RowsAffected]
    cases h1 : faults tx.calls with
    | some e => simp
    | none =>
      simp only []
      cases h2 : faults (tx.calls + 1) with
      | some e => simp
      | none =>
        simp only []
        obtain ⟨ha, hb⟩ := ih (⟨tx.committed, tx.pending ++ [(ghRepo.Id, tag.Id)],
          tx.calls + 1 + 1⟩ : Tx)
        refine ⟨ha, ?_⟩
        intro hnone
        rw [hb hnone]
        simp

/-- The insert loop makes two calls per tag, numbered from `tx.calls` on (the insert of the
`i`-th tag is call `tx.calls + 2 * i`, its rows-affected check call `tx.calls + 2 * i + 1`):
it ends without error exactly when none of them fails, and then all of them were made. -/
theorem saveTagsLoop_calls (faults : Nat → Option Error) (ghRepo : GhRepository) :
    ∀ (tags : List Tag) (tx : Tx),
      ((saveTagsLoop faults ghRepo tags tx).2 = none ↔
        ∀ k : Nat, k < 2 * tags.length → faults (tx.calls + k) = none) ∧
      ((saveTagsLoop faults ghRepo tags tx).2 = none →
        (saveTagsLoop faults ghRepo tags tx).1.calls = tx.calls + 2 * tags.length) := by
  intro tags
  induction tags with
  | nil => intro tx; simp [saveTagsLoop]
  | cons tag rest ih =>
    intro tx
    simp only [saveTagsLoop, Tx.ExecInsert, Tx.RowsAffected]
    cases h1 : faults tx.calls with
    | some e =>
      simp only [List.length_cons]
      refine ⟨⟨fun h => by simp at h, fun h => ?_⟩, fun h => by simp at h⟩
      have := h 0 (by omega)
      simp [h1] at this
    | none =>
      simp only []
      cases h2 : faults (tx.calls + 1) with
      | some e =>
        simp only [List.length_cons]
        refine ⟨⟨fun h => by simp at h, fun h => ?_⟩, fun h => by simp at h⟩
        have := h 1 (by omega)
        simp [h2] at this
      | none =>
        simp only []
        obtain ⟨ha, hb⟩ := ih (⟨tx.committed, tx.pending ++ [(ghRepo.Id, tag.Id)],
          tx.calls + 1 + 1⟩ : Tx)
        simp only [List.length_cons]
        refine ⟨?_, ?_⟩
        · rw [ha]
          constructor
          · intro h k hk
            match k with
            | 0 => exact h1
            | 1 => exact h2
            | k + 2 =>
              have := h k (by omega)
              simpa [Nat.add_assoc, Nat.add_comm, Nat.add_left_comm] using this
          · intro h k hk
            have := h (k + 2) (by omega)
            simpa [Nat.add_assoc, Nat.add_comm, Nat.add_left_comm] using this
        · intro h
          rw [hb h]
          simp only []
          omega

/-- The error of the insert loop is that of the first call that fails: the wrapped insert
error of the `i`-th tag, or the wrapped error of its rows-affected check. -/
theorem saveTagsLoop_first_fault (faults : Nat → Option Error) (ghRepo : GhRepository) :
    ∀ (tags : List Tag) (tx : Tx) (i : Nat) (tag : Tag) (e : Error),
      tags[i]? = some tag →
      (∀ k : Nat, k < 2 * i → faults (tx.calls + k) = none) →
      (faults (tx.calls + 2 * i) = some e →
        (saveTagsLoop faults ghRepo tags tx).2
          = some ("failed to run insert repositories_tags query, repository id: "
              ++ toString ghRepo.Id ++ ", tag id: " ++ toString tag.Id ++ " error: " ++ e)) ∧
      (faults (tx.calls + 2 * i) = none → faults (tx.calls + 2 * i + 1) = some e →
        (saveTagsLoop faults ghRepo tags tx).2
          = some ("repositories_tags insert rows affected returns error: " ++ e)) := by
  intro tags
  induction tags with
  | nil => intro tx i tag e h; simp at h
  | cons t rest ih =>
    intro tx i tag e hget hbefore
    cases i with
    | zero =>
      simp at hget
      subst hget
      simp only [saveTagsLoop, Tx.ExecInsert, Tx.RowsAffected, Nat.mul_zero, Nat.add_zero]
      constructor
      · intro h; simp [h]
      · intro h h1; simp [h, h1]
    | succ i =>
      simp at hget
      have h0 : faults tx.calls = none := by simpa using hbefore 0 (by omega)
      have h1 : faults (tx.calls + 1) = none := hbefore 1 (by omega)
      simp only [saveTagsLoop, Tx.ExecInsert, Tx.RowsAffected, h0, h1]
      have := ih (⟨tx.committed, tx.pending ++ [(ghRepo.Id, t.Id)], tx.calls + 1 + 1⟩ : Tx)
        i tag e hget (by
          intro k hk
          have := hbefore (k + 2) (by omega)
          simpa [Nat.add_assoc, Nat.add_comm, Nat.add_left_comm] using this)
      have e1 : tx.calls + 1 + 1 + 2 * i = tx.calls + 2 * (i + 1) := by omega
      simp only [e1] at this
      exact this

/-- The two outcomes of `SaveTags`: no error and the tag set rewritten, or an error and the
committed table as before. -/
theorem SaveTags_outcome (faults : Nat → Option Error) (db : DB)
    (ghRepo : GhRepository) (tags : List Tag) :
    ((SaveTags faults db ghRepo tags).2 = none ∧
      tagIdsOf (SaveTags faults db ghRepo tags).1 ghRepo.Id = tags.map (fun tag => tag.Id) ∧
      ∀ id : Int, id ≠ ghRepo.Id →
        tagIdsOf (SaveTags faults db ghRepo tags).1 id = tagIdsOf db id) ∨
    ((SaveTags faults db ghRepo tags).2 ≠ none ∧
      (SaveTags faults db ghRepo tags).1.repositories_tags = db.repositories_tags ∧
      tagIdsOf (SaveTags faults db ghRepo tags).1 ghRepo.Id = tagIdsOf db ghRepo.Id) := by
  unfold SaveTags BeginTx
  cases h0 : faults db.calls with
  | some e => right; simp
  | none =>
    simp only [Tx.ExecDelete]
    cases h1 : faults (db.calls + 1) with
    | some e => right; simp [Tx.Rollback, tagIdsOf]
    | none =>
      simp only []
      obtain ⟨ha, hb⟩ := saveTagsLoop_spec faults ghRepo tags
        { committed := db.repositories_tags,
          pending := db.repositories_tags.filter (fun row => decide (row.1 ≠ ghRepo.Id)),
          calls := db.calls + 1 + 1 }
      generalize saveTagsLoop faults ghRepo tags
        { committed := db.repositories_tags,
          pending := db.repositories_tags.filter (fun row => decide (row.1 ≠ ghRepo.Id)),
          calls := db.calls + 1 + 1 } = out at ha hb
      obtain ⟨tx, err⟩ := out
      cases err with
      | some e => right; simp at ha; simp [Tx.Rollback, tagIdsOf, ha]
      | none =>
        simp only [] at ha hb ⊢
        have hp := hb trivial
        simp only [Tx.Commit]
        cases h2 : faults tx.calls with
        | some e => right; simp [tagIdsOf, ha]
        | none =>
          left
          simp only [tagIdsOf, hp, true_and]
          constructor
          · simp [List.filter_append, List.filter_map, Function.comp_def, List.filter_filter]
          · intro id hid
            have hne : ghRepo.Id ≠ id := fun h => hid h.symm
            simp [List.filter_append, List.filter_map, Function.comp_def, List.filter_filter, hne]
            congr 1
            apply List.filter_congr
            intro a _
            by_cases ha1 : a.1 = id
            · simp [ha1, hid]
            · simp [ha1]

/-- The calls of `SaveTags` are numbered from `db.calls` on: call `0` is the begin, `1` the
delete, `2 * i + 2` the insert of the `i`-th tag, `2 * i + 3` its rows-affected check and
`2 * tags.length + 2` the commit.  `SaveTags` returns no error exactly when none fails. -/
theorem SaveTags_err_none_iff (faults : Nat → Option Error) (db : DB)
    (ghRepo : GhRepository) (tags : List Tag) :
    (SaveTags faults db ghRepo tags).2 = none ↔
      ∀ k : Nat, k < 2 * tags.length + 3 → faults (db.calls + k) = none := by
  unfold SaveTags BeginTx
  cases h0 : faults db.calls with
  | some e =>
    refine ⟨fun h => by simp at h, fun h => ?_⟩
    have := h 0 (by omega)
    simp [h0] at this
  | none =>
    simp only [Tx.ExecDelete]
    cases h1 : faults (db.calls + 1) with
    | some e =>
      refine ⟨fun h => by simp at h, fun h => ?_⟩
      have := h 1 (by omega)
      simp [h1] at this
    | none =>
      simp only []
      obtain ⟨ha, hb⟩ := saveTagsLoop_calls faults ghRepo tags
        { committed := db.repositories_tags,
          pending := db.repositories_tags.filter (fun row => decide (row.1 ≠ ghRepo.Id)),
          calls := db.calls + 1 + 1 }
      generalize saveTagsLoop faults ghRepo tags
        { committed := db.repositories_tags,
          pending := db.repositories_tags.filter (fun row => decide (row.1 ≠ ghRepo.Id)),
          calls := db.calls + 1 + 1 } = out at ha hb
      obtain ⟨tx, err⟩ := out
      simp only [] at ha hb
      cases err with
      | some e =>
        refine ⟨fun h => by simp at h, fun h => ?_⟩
        have hall : ∀ k : Nat, k < 2 * tags.length → faults (db.calls + 1 + 1 + k) = none := by
          intro k hk
          have := h (k + 2) (by omega)
          simpa [Nat.add_assoc, Nat.add_comm, Nat.add_left_comm] using this
        have := ha.mpr hall
        simp at this
      | none =>
        have hc : tx.calls = db.calls + 1 + 1 + 2 * tags.length := hb rfl
        have hall := ha.mp rfl
        simp only [Tx.Commit]
        cases h2 : faults tx.calls with
        | some e =>
          refine ⟨fun h => by simp at h, fun h => ?_⟩
          have := h (2 * tags.length + 2) (by omega)
          have e1 : db.calls + (2 * tags.length + 2) = tx.calls := by omega
          rw [e1, h2] at this
          simp at this
        | none =>
          refine ⟨fun _ => ?_, fun _ => rfl⟩
          intro k hk
          by_cases hk0 : k = 0
          · subst hk0; exact h0
          by_cases hk1 : k = 1
          · subst hk1; exact h1
          by_cases hk2 : k = 2 * tags.length + 2
          · subst hk2
            have e1 : db.calls + (2 * tags.length + 2) = tx.calls := by omega
            rw [e1]; exact h2
          have := hall (k - 2) (by omega)
          have e2 : db.calls + 1 + 1 + (k - 2) = db.calls + k := by omega
          rw [e2] at this
          exact this

/-- The error `SaveTags` returns is that of the first call that fails, wrapped as the source
wraps it for a begin, a delete, an insert or a rows-affected check, and as it is for the
commit. -/
theorem SaveTags_first_fault (faults : Nat → Option Error) (db : DB)
    (ghRepo : GhRepository) (tags : List Tag) :
    (∀ e : Error, faults db.calls = some e →
      SaveTags faults db ghRepo tags
        = (db, some ("failed to begin repository update tags transaction: " ++ e))) ∧
    (∀ e : Error, faults db.calls = none → faults (db.calls + 1) = some e →
      (SaveTags faults db ghRepo tags).2
        = some ("failed to run delete repositories_tags query, repository id: "
            ++ toString ghRepo.Id ++ ", error: " ++ e)) ∧
    (∀ (i : Nat) (tag : Tag) (e : Error), tags[i]? = some tag →
      (∀ k : Nat, k < 2 * i + 2 → faults (db.calls + k) = none) →
      faults (db.calls + (2 * i + 2)) = some e →
      (SaveTags faults db ghRepo tags).2
        = some ("failed to run insert repositories_tags query, repository id: "
            ++ toString ghRepo.Id ++ ", tag id: " ++ toString tag.Id ++ " error: " ++ e)) ∧
    (∀ (i : Nat) (e : Error), i < tags.length →
      (∀ k : Nat, k < 2 * i + 3 → faults (db.calls + k) = none) →
      faults (db.calls + (2 * i + 3)) = some e →
      (SaveTags faults db ghRepo tags).2
        = some ("repositories_tags insert rows affected returns error: " ++ e)) ∧
    (∀ e : Error, (∀ k : Nat, k < 2 * tags.length + 2 → faults (db.calls + k) = none) →
      faults (db.calls + (2 * tags.length + 2)) = some e →
      (SaveTags faults db ghRepo tags).2 = some e) := by
  refine ⟨?_, ?_, ?_, ?_, ?_⟩
  · intro e h0
    simp [SaveTags, BeginTx, h0]
  · intro e h0 h1
    simp [SaveTags, BeginTx, Tx.ExecDelete, h0, h1]
  · intro i tag e hget hbefore hi
    have h0 : faults db.calls = none := by simpa using hbefore 0 (by omega)
    have h1 : faults (db.calls + 1) = none := hbefore 1 (by omega)
    have hl := (saveTagsLoop_first_fault faults ghRepo tags
      { committed := db.repositories_tags,
        pending := db.repositories_tags.filter (fun row => decide (row.1 ≠ ghRepo.Id)),
        calls := db.calls + 1 + 1 } i tag e hget (by
          intro k hk
          have := hbefore (k + 2) (by omega)
          simpa [Nat.add_assoc, Nat.add_comm, Nat.add_left_comm] using this)).1 (by
          have e1 : db.calls + 1 + 1 + 2 * i = db.calls + (2 * i + 2) := by omega
          simp only [e1]; exact hi)
    simp only [SaveTags, BeginTx, Tx.ExecDelete, h0, h1]
    generalize saveTagsLoop faults ghRepo tags
      { committed := db.repositories_tags,
        pending := db.repositories_tags.filter (fun row => decide (row.1 ≠ ghRepo.Id)),
        calls := db.calls + 1 + 1 } = out at hl
    obtain ⟨tx, err⟩ := out
    simp only [] at hl
    subst hl
    rfl
  · intro i e hlt hbefore hi
    have h0 : faults db.calls = none := by simpa using hbefore 0 (by omega)
    have h1 : faults (db.calls + 1) = none := hbefore 1 (by omega)
    obtain ⟨tag, hget⟩ : ∃ tag, tags[i]? = some tag := ⟨tags[i], List.getElem?_eq_getElem hlt⟩
    have hl := (saveTagsLoop_first_fault faults ghRepo tags
      { committed := db.repositories_tags,
        pending := db.repositories_tags.filter (fun row => decide (row.1 ≠ ghRepo.Id)),
        calls := db.calls + 1 + 1 } i tag e hget (by
          intro k hk
          have := hbefore (k + 2) (by omega)
          simpa [Nat.add_assoc, Nat.add_comm, Nat.add_left_comm] using this)).2 (by
          have := hbefore (2 * i + 2) (by omega)
          have e1 : db.calls + 1 + 1 + 2 * i = db.calls + (2 * i + 2) := by omega
          simp only [e1]; exact this) (by
          have e1 : db.calls + 1 + 1 + 2 * i + 1 = db.calls + (2 * i + 3) := by omega
          simp only [e1]; exact hi)
    simp only [SaveTags, BeginTx, Tx.ExecDelete, h0, h1]
    generalize saveTagsLoop faults ghRepo tags
      { committed := db.repositories_tags,
        pending := db.repositories_tags.filter (fun row => decide (row.1 ≠ ghRepo.Id)),
        calls := db.calls + 1 + 1 } = out at hl
    obtain ⟨tx, err⟩ := out
    simp only [] at hl
    subst hl
    rfl
  · intro e hbefore hc
    have h0 : faults db.calls = none := by simpa using hbefore 0 (by omega)
    have h1 : faults (db.calls + 1) = none := hbefore 1 (by omega)
    obtain ⟨ha, hb⟩ := saveTagsLoop_calls faults ghRepo tags
      { committed := db.repositories_tags,
        pending := db.repositories_tags.filter (fun row => decide (row.1 ≠ ghRepo.Id)),
        calls := db.calls + 1 + 1 }
    have hnone := ha.mpr (by
      intro k hk
      have := hbefore (k + 2) (by omega)
      simpa [Nat.add_assoc, Nat.add_comm, Nat.add_left_comm] using this)
    have hcalls := hb hnone
    simp only [SaveTags, BeginTx, Tx.ExecDelete, h0, h1]
    generalize saveTagsLoop faults ghRepo tags
      { committed := db.repositories_tags,
        pending := db.repositories_tags.filter (fun row => decide (row.1 ≠ ghRepo.Id)),
        calls := db.calls + 1 + 1 } = out at hnone hcalls
    obtain ⟨tx, err⟩ := out
    simp only [] at hnone hcalls
    subst hnone
    have e1 : tx.calls = db.calls + (2 * tags.length + 2) := by omega
    simp [Tx.Commit, e1, hc]

/-- C6: `SaveTags` is all-or-nothing.  Its calls are numbered from `db.calls` on: call `0`
is the begin, `1` the delete, `2 * i + 2` the insert of the `i`-th tag, `2 * i + 3` the
rows-affected check of that insert and `2 * tags.length + 2` the commit.
(1) Either it returns no error, the tag ids of the repository are exactly those of the
given tags and the rows of other repositories are as before, or it returns an error and
the committed table, so the stored tag set of the repository, is unchanged.
(2) It returns no error exactly when none of its calls fails.
(3) to (7) When a call fails and none before it did, the error returned is the one of that
call: of the begin (and the database is returned as it was given), of the delete, of the
insert of the `i`-th tag, of the rows-affected check of the `i`-th insert, of the commit. -/
theorem C6_SaveTags_all_or_nothing (faults : Nat → Option Error) (db : DB)
    (ghRepo : GhRepository) (tags : List Tag) :
    (((SaveTags faults db ghRepo tags).2 = none ∧
        tagIdsOf (SaveTags faults db ghRepo tags).1 ghRepo.Id = tags.map (fun tag => tag.Id) ∧
        ∀ id : Int, id ≠ ghRepo.Id →
          tagIdsOf (SaveTags faults db ghRepo tags).1 id = tagIdsOf db id) ∨
      ((SaveTags faults db ghRepo tags).2 ≠ none ∧
        (SaveTags faults db ghRepo tags).1.repositories_tags = db.repositories_tags ∧
        tagIdsOf (SaveTags faults db ghRepo tags).1 ghRepo.Id = tagIdsOf db ghRepo.Id)) ∧
    ((SaveTags faults db ghRepo tags).2 = none ↔
      ∀ k : Nat, k < 2 * tags.length + 3 → faults (db.calls + k) = none) ∧
    (∀ e : Error, faults db.calls = some e →
      SaveTags faults db ghRepo tags
        = (db, some ("failed to begin repository update tags transaction: " ++ e))) ∧
    (∀ e : Error, faults db.calls = none → faults (db.calls + 1) = some e →
      (SaveTags faults db ghRepo tags).2
        = some ("failed to run delete repositories_tags query, repository id: "
            ++ toString ghRepo.Id ++ ", error: " ++ e)) ∧
    (∀ (i : Nat) (tag : Tag) (e : Error), tags[i]? = some tag →
      (∀ k : Nat, k < 2 * i + 2 → faults (db.calls + k) = none) →
      faults (db.calls + (2 * i + 2)) = some e →
      (SaveTags faults db ghRepo tags).2
        = some ("failed to run insert repositories_tags query, repository id: "
            ++ toString ghRepo.Id ++ ", tag id: " ++ toString tag.Id ++ " error: " ++ e)) ∧
    (∀ (i : Nat) (e : Error), i < tags.length →
      (∀ k : Nat, k < 2 * i + 3 → faults (db.calls + k) = none) →
      faults (db.calls + (2 * i + 3)) = some e →
      (SaveTags faults db ghRepo tags).2
        = some ("repositories_tags insert rows affected returns error: " ++ e)) ∧
    (∀ e : Error, (∀ k : Nat, k < 2 * tags.length + 2 → faults (db.calls + k) = none) →
      faults (db.calls + (2 * tags.length + 2)) = some e →
      (SaveTags faults db ghRepo tags).2 = some e) :=
  ⟨SaveTags_outcome faults db ghRepo tags, SaveTags_err_none_iff faults db ghRepo tags,
    SaveTags_first_fault faults db ghRepo tags⟩

/-- C6 at a table that holds tags 10 and 11 of repository 1 and tag 20 of repository 2,
rewritten to tags 30 and 40 of repository 1.  When no call fails the tags of repository 1
are 30 and 40 and those of repository 2 are as before; when the rows-affected check of the
second insert (call 5) fails, the error is returned and the table is as before. -/
theorem C6_SaveTags_all_or_nothing_witness :
    ((SaveTags neverFails ⟨[(1, 10), (1, 11), (2, 20)], 0⟩ (repositoryWithId 1)
        [⟨30, "go"⟩, ⟨40, "cli"⟩]).2 = none ∧
      tagIdsOf (SaveTags neverFails ⟨[(1, 10), (1, 11), (2, 20)], 0⟩ (repositoryWithId 1)
        [⟨30, "go"⟩, ⟨40, "cli"⟩]).1 1 = [30, 40] ∧
      tagIdsOf (SaveTags neverFails ⟨[(1, 10), (1, 11), (2, 20)], 0⟩ (repositoryWithId 1)
        [⟨30, "go"⟩, ⟨40, "cli"⟩]).1 2 = [20]) ∧
    ((SaveTags (failsAtCall 5) ⟨[(1, 10), (1, 11), (2, 20)], 0⟩ (repositoryWithId 1)
        [⟨30, "go"⟩, ⟨40, "cli"⟩]).2
        = some ("repositories_tags insert rows affected returns error: " ++ "gone away") ∧
      (SaveTags (failsAtCall 5) ⟨[(1, 10), (1, 11), (2, 20)], 0⟩ (repositoryWithId 1)
        [⟨30, "go"⟩, ⟨40, "cli"⟩]).1.repositories_tags = [(1, 10), (1, 11), (2, 20)]) := by
  have ok := C6_SaveTags_all_or_nothing neverFails ⟨[(1, 10), (1, 11), (2, 20)], 0⟩
    (repositoryWithId 1) [⟨30, "go"⟩, ⟨40, "cli"⟩]
  have ko := C6_SaveTags_all_or_nothing (failsAtCall 5) ⟨[(1, 10), (1, 11), (2, 20)], 0⟩
    (repositoryWithId 1) [⟨30, "go"⟩, ⟨40, "cli"⟩]
  have hnone := ok.2.1.mpr (fun _ _ => rfl)
  have herr := ko.2.2.2.2.2.1 1 "gone away" (by decide)
    (by intro k hk; interval_cases k <;> rfl) rfl
  refine ⟨⟨hnone, ?_, ?_⟩, herr, ?_⟩
  · rcases ok.1 with h | h
    · exact h.2.1
    · exact absurd hnone h.1
  · rcases ok.1 with h | h
    · exact h.2.2 2 (by decide)
    · exact absurd hnone h.1
  · rcases ko.1 with h | h
    · rw [herr] at h; exact absurd h.1 (by simp)
    · exact h.2.1

end model

/-! ### The grouping fold of `FindAllWithTags` (C10) -/

namespace dbutils.CollectionMap

variable {K V : Type} [DecidableEq K]

theorem Has_iff (m : CollectionMap K V) (k : K) :
    m.Has k = true ↔ k ∈ m.entries.map (fun e => e.1) := by
  simp [Has, List.any_eq_true]

theorem Set_keys (m : CollectionMap K V) (k : K) (v : V) :
    (m.Set k v).entries.map (fun e => e.1)
      = if m.Has k = true then m.entries.map (fun e => e.1)
        else m.entries.map (fun e => e.1) ++ [k] := by
  unfold Set
  by_cases h : m.Has k = true
  · simp only [h, if_true, List.map_map]
    apply List.map_congr_left
    intro e _
    by_cases he : e.1 = k <;> simp [he]
  · simp [h]

theorem mem_Set (m : CollectionMap K V) (k : K) (v : V) (e : K × V)
    (he : e ∈ (m.Set k v).entries) : e = (k, v) ∨ (e ∈ m.entries ∧ e.1 ≠ k) := by
  unfold Set at he
  by_cases h : m.Has k = true
  · simp only [h, if_true, List.mem_map] at he
    obtain ⟨a, ha, hae⟩ := he
    by_cases hak : a.1 = k
    · left; rw [← hae]; simp [hak]
    · right; rw [if_neg hak] at hae; rw [← hae]; exact ⟨ha, hak⟩
  · simp only [h, if_false, List.mem_append, List.mem_singleton, Bool.false_eq_true] at he
    rcases he with he | he
    · right
      refine ⟨he, ?_⟩
      intro hk
      apply h
      rw [Has_iff]
      exact List.mem_map.2 ⟨e, he, hk⟩
    · left; exact he

theorem Get_some_mem (m : CollectionMap K V) (k : K) (v : V) (h : m.Get k = some v) :
    (k, v) ∈ m.entries := by
  unfold Get at h
  cases hf : m.entries.find? (fun e => decide (e.1 = k)) with
  | none => simp [hf] at h
  | some e =>
    simp [hf] at h
    have h1 := List.mem_of_find?_eq_some hf
    have h2 := List.find?_some hf
    simp at h2
    rw [← h, ← h2]
    exact h1

theorem Get_isSome_of_Has (m : CollectionMap K V) (k : K) (h : m.Has k = true) :
    ∃ v, m.Get k = some v := by
  unfold Get
  cases hf : m.entries.find? (fun e => decide (e.1 = k)) with
  | none =>
    rw [List.find?_eq_none] at hf
    rw [Has_iff] at h
    obtain ⟨e, he, hek⟩ := List.mem_map.1 h
    have := hf e he
    simp [hek] at this
  | some e => exact ⟨e.2, rfl⟩

theorem Has_Set (m : CollectionMap K V) (k : K) (v : V) : (m.Set k v).Has k = true := by
  rw [Has_iff, Set_keys]
  by_cases h : m.Has k = true
  · rw [if_pos h]; exact (Has_iff m k).1 h
  · rw [if_neg h]; simp

end dbutils.CollectionMap

namespace model

open dbutils

theorem firstSeen_mem (a : Int) : ∀ l : List Int, a ∈ firstSeen l ↔ a ∈ l
  | [] => by simp [firstSeen]
  | b :: l => by
    simp only [firstSeen, List.mem_cons, List.mem_filter, firstSeen_mem a l]
    by_cases h : a = b <;> simp [h]

theorem firstSeen_append_singleton (a : Int) (l : List Int) :
    firstSeen (l ++ [a]) = if a ∈ l then firstSeen l else firstSeen l ++ [a] := by
  induction l with
  | nil => simp [firstSeen]
  | cons b l ih =>
    rw [List.cons_append, firstSeen, ih, firstSeen]
    by_cases hab : a = b
    · subst hab
      by_cases hal : a ∈ l
      · simp [hal]
      · simp [hal, List.filter_append]
    · by_cases hal : a ∈ l
      · simp [hal, hab]
      · simp [hal, hab, List.filter_append]

theorem tagsOf_append (id : Int) (rows : List TagRow) (r : TagRow) :
    tagsOf id (rows ++ [r])
      = tagsOf id rows ++
        (if r.ghr.Id = id ∧ r.tagId.Valid = true ∧ r.tagName.Valid = true then
          [{ Id := r.tagId.Int64, Name := r.tagName.String }] else []) := by
  unfold tagsOf
  rw [List.filterMap_append]
  congr 1
  by_cases h : r.ghr.Id = id ∧ r.tagId.Valid = true ∧ r.tagName.Valid = true
  · simp [List.filterMap_cons, h]
  · simp only [List.filterMap_cons, if_neg h, List.filterMap_nil]

theorem firstRowOf_append (id : Int) (rows : List TagRow) (r : TagRow) :
    firstRowOf id (rows ++ [r])
      = match firstRowOf id rows with
        | some g => some g
        | none => if r.ghr.Id = id then some r.ghr else none := by
  unfold firstRowOf
  rw [List.find?_append]
  cases h : rows.find? (fun row => decide (row.ghr.Id = id)) with
  | some x => simp
  | none =>
    by_cases hr : r.ghr.Id = id <;> simp [List.find?_cons, hr]

theorem firstRowOf_none (id : Int) (rows : List TagRow)
    (h : id ∉ rows.map (fun row => row.ghr.Id)) : firstRowOf id rows = none := by
  unfold firstRowOf
  rw [Option.map_eq_none', List.find?_eq_none]
  intro x hx
  simp only [decide_eq_true_eq]
  intro hid
  exact h (List.mem_map.2 ⟨x, hx, hid⟩)

theorem tagsOf_nil_of_not_mem (id : Int) (rows : List TagRow)
    (h : id ∉ rows.map (fun row => row.ghr.Id)) : tagsOf id rows = [] := by
  unfold tagsOf
  rw [List.filterMap_eq_nil_iff]
  intro x hx
  have : x.ghr.Id ≠ id := fun hid => h (List.mem_map.2 ⟨x, hx, hid⟩)
  simp [this]

/-- One row of the fold keeps the invariant `Grouped`. -/
theorem findAllWithTagsBody_grouped (m : CollectionMap Int GhRepository) (rows : List TagRow)
    (r : TagRow) (h : Grouped m rows) : Grouped (findAllWithTagsBody m r) (rows ++ [r]) := by
  obtain ⟨hkeys, hent⟩ := h
  have hHas : m.Has r.ghr.Id = true ↔ r.ghr.Id ∈ rows.map (fun row => row.ghr.Id) := by
    rw [CollectionMap.Has_iff, hkeys, firstSeen_mem]
  -- the first `if`: the repository is recorded when its key is unseen
  have stage1 : ∀ m1 : CollectionMap Int GhRepository,
      m1 = (if (!m.Has r.ghr.Id) = true then m.Set r.ghr.Id { r.ghr with Tags := [] } else m) →
      m1.Has r.ghr.Id = true ∧
      m1.entries.map (fun e => e.1) = firstSeen ((rows ++ [r]).map (fun row => row.ghr.Id)) ∧
      ∀ e ∈ m1.entries, (firstRowOf e.1 (rows ++ [r])).map
          (fun g => { g with Tags := tagsOf e.1 rows }) = some e.2 := by
    intro m1 hm1
    have hold : ∀ e ∈ m.entries, (firstRowOf e.1 (rows ++ [r])).map
        (fun g => { g with Tags := tagsOf e.1 rows }) = some e.2 := by
      intro e he
      have := hent e he
      unfold groupedRepo at this
      rw [firstRowOf_append]
      cases hf : firstRowOf e.1 rows with
      | none => simp [hf] at this
      | some g => simpa [hf] using this
    rw [List.map_append, List.map_cons, List.map_nil, firstSeen_append_singleton]
    by_cases hh : m.Has r.ghr.Id = true
    · have : m1 = m := by simp [hm1, hh]
      subst this
      exact ⟨hh, by rw [if_pos (hHas.1 hh)]; exact hkeys, hold⟩
    · have hnm : r.ghr.Id ∉ rows.map (fun row => row.ghr.Id) := fun hmem => hh (hHas.2 hmem)
      have : m1 = m.Set r.ghr.Id { r.ghr with Tags := [] } := by simp [hm1, hh]
      subst this
      refine ⟨CollectionMap.Has_Set _ _ _, ?_, ?_⟩
      · rw [if_neg hnm, CollectionMap.Set_keys, if_neg hh, hkeys]
      · intro e he
        rcases CollectionMap.mem_Set _ _ _ _ he with he | ⟨he, _⟩
        · subst he
          simp only []
          rw [firstRowOf_append, firstRowOf_none _ _ hnm, tagsOf_nil_of_not_mem _ _ hnm]
          simp
        · exact hold e he
  obtain ⟨h1, h2, h3⟩ := stage1 _ rfl
  unfold findAllWithTagsBody
  simp only []
  generalize (if (!m.Has r.ghr.Id) = true then m.Set r.ghr.Id { r.ghr with Tags := [] } else m)
    = m1 at h1 h2 h3
  by_cases hv : (r.tagId.Valid && r.tagName.Valid) = true
  · rw [if_pos hv]
    obtain ⟨repo, hrepo⟩ := CollectionMap.Get_isSome_of_Has m1 _ h1
    rw [hrepo]
    simp only []
    have hmem := CollectionMap.Get_some_mem m1 _ _ hrepo
    have hv2 : r.tagId.Valid = true ∧ r.tagName.Valid = true := by simpa using hv
    refine ⟨?_, ?_⟩
    · rw [CollectionMap.Set_keys, if_pos h1]; exact h2
    · intro e he
      unfold groupedRepo
      rw [tagsOf_append]
      rcases CollectionMap.mem_Set _ _ _ _ he with he | ⟨he, hne⟩
      · subst he
        have := h3 _ hmem
        simp only [] at this ⊢
        cases hf : firstRowOf r.ghr.Id (rows ++ [r]) with
        | none => simp [hf] at this
        | some g =>
          simp only [hf, Option.map_some', Option.some.injEq] at this ⊢
          rw [← this]
          simp [hv2]
      · have := h3 e he
        rw [if_neg (fun hc => hne hc.1.symm), List.append_nil]
        exact this
  · rw [if_neg hv]
    refine ⟨h2, ?_⟩
    intro e he
    unfold groupedRepo
    rw [tagsOf_append, if_neg (fun hc => hv (by simp [hc.2.1, hc.2.2])), List.append_nil]
    exact h3 e he

theorem foldl_grouped (rows : List TagRow) :
    Grouped (rows.foldl findAllWithTagsBody NewCollectionMap) rows := by
  induction rows using List.reverseRecOn with
  | nil => simp [Grouped, NewCollectionMap, firstSeen]
  | append_singleton l a ih =>
    rw [List.foldl_append]
    exact findAllWithTagsBody_grouped _ l a ih

theorem firstSeen_nodup : ∀ l : List Int, (firstSeen l).Nodup
  | [] => by simp [firstSeen]
  | a :: l => by
    rw [firstSeen, List.nodup_cons]
    exact ⟨by simp [List.mem_filter], (firstSeen_nodup l).filter _⟩

theorem firstRowOf_id {id : Int} {rows : List TagRow} {g : GhRepository}
    (h : firstRowOf id rows = some g) : g.Id = id := by
  unfold firstRowOf at h
  cases hf : rows.find? (fun row => decide (row.ghr.Id = id)) with
  | none => simp [hf] at h
  | some x =>
    simp [hf] at h
    have := List.find?_some hf
    simp at this
    rw [← h]; exact this

/-- C10: the result of `FindAllWithTags` lists the distinct repository ids of the rows once
each, in the order of their first appearance; each repository carries the columns of its
first row and, as `Tags`, the tags of the rows of its id whose tag id and tag name are both
valid, in row order; the rows `[(A,tag1), (A,tag2), (B,none)]` give
`[{A,[tag1,tag2]}, {B,[]}]`. -/
theorem C10_FindAllWithTags_groups (rows : List TagRow) :
    (FindAllWithTags rows).map (fun repo => repo.Id)
      = firstSeen (rows.map (fun row => row.ghr.Id)) ∧
    ((FindAllWithTags rows).map (fun repo => repo.Id)).Nodup ∧
    (∀ id : Int, id ∈ (FindAllWithTags rows).map (fun repo => repo.Id)
      ↔ id ∈ rows.map (fun row => row.ghr.Id)) ∧
    (∀ repo ∈ FindAllWithTags rows,
      repo.Tags = tagsOf repo.Id rows ∧
      ∃ g, firstRowOf repo.Id rows = some g ∧ repo = { g with Tags := tagsOf repo.Id rows }) ∧
    FindAllWithTags
        [⟨⟨1, 11, 5, 2, "a/a", "go", ⟨"a", ""⟩, "", "", "", "main", []⟩, ⟨7, true⟩, ⟨"tag1", true⟩⟩,
         ⟨⟨1, 11, 5, 2, "a/a", "go", ⟨"a", ""⟩, "", "", "", "main", []⟩, ⟨8, true⟩, ⟨"tag2", true⟩⟩,
         ⟨⟨2, 12, 3, 1, "b/b", "go", ⟨"b", ""⟩, "", "", "", "main", []⟩, ⟨0, false⟩, ⟨"", false⟩⟩]
      = [⟨1, 11, 5, 2, "a/a", "go", ⟨"a", ""⟩, "", "", "", "main", [⟨7, "tag1"⟩, ⟨8, "tag2"⟩]⟩,
         ⟨2, 12, 3, 1, "b/b", "go", ⟨"b", ""⟩, "", "", "", "main", []⟩] := by
  obtain ⟨hkeys, hent⟩ := foldl_grouped rows
  have hrepo : ∀ e ∈ (rows.foldl findAllWithTagsBody NewCollectionMap).entries,
      ∃ g, firstRowOf e.1 rows = some g ∧ e.2 = { g with Tags := tagsOf e.1 rows } ∧
        e.2.Id = e.1 := by
    intro e he
    have := hent e he
    unfold groupedRepo at this
    cases hf : firstRowOf e.1 rows with
    | none => simp [hf] at this
    | some g =>
      simp only [hf, Option.map_some', Option.some.injEq] at this
      have hgid : g.Id = e.1 := firstRowOf_id hf
      exact ⟨g, rfl, this.symm, by rw [← this]; exact hgid⟩
  have hids : (FindAllWithTags rows).map (fun repo => repo.Id)
      = firstSeen (rows.map (fun row => row.ghr.Id)) := by
    rw [← hkeys]
    unfold FindAllWithTags CollectionMap.All
    rw [List.map_map]
    apply List.map_congr_left
    intro e he
    obtain ⟨_, _, _, h⟩ := hrepo e he
    exact h
  refine ⟨hids, ?_, ?_, ?_, by decide⟩
  · rw [hids]; exact firstSeen_nodup _
  · intro id; rw [hids]; exact firstSeen_mem id _
  · intro repo hmem
    unfold FindAllWithTags CollectionMap.All at hmem
    obtain ⟨e, he, rfl⟩ := List.mem_map.1 hmem
    obtain ⟨g, hg, heq, hid⟩ := hrepo e he
    rw [hid]
    refine ⟨by rw [heq], g, hg, heq⟩

end model

/-! ### `parseEndDateTimeOption` (C7, C8, C9) -/

namespace cmd

open time

/-- The cycles `absYearDay` cuts off, with their ranges. -/
theorem absYearDay_eq (days : Nat) :
    ∃ a d1 n2 d2 n3 d3 n4 : Nat,
      days = 146097 * a + d1 ∧ d1 < 146097 ∧
      n2 ≤ 3 ∧ d1 = 36524 * n2 + d2 ∧ d2 ≤ 36524 ∧
      d2 = 1461 * n3 + d3 ∧ d3 < 1461 ∧ n3 ≤ 24 ∧
      n4 ≤ 3 ∧ d3 - 365 * n4 ≤ 365 ∧ 365 * n4 ≤ d3 ∧
      (d2 < 36524 ∨ n2 = 3) ∧ (d3 - 365 * n4 < 365 ∨ n4 = 3) ∧
      absYearDay days
        = (((400 * a + 100 * n2 + 4 * n3 + n4 : Nat) : Int) + absoluteZeroYear, d3 - 365 * n4) := by
  obtain ⟨a, ha⟩ : ∃ a, a = days / 146097 := ⟨_, rfl⟩
  obtain ⟨d1, hd1⟩ : ∃ d1, d1 = days - 146097 * a := ⟨_, rfl⟩
  obtain ⟨c, hc⟩ : ∃ c, c = d1 / 36524 := ⟨_, rfl⟩
  have hc4 : c ≤ 4 := by omega
  obtain ⟨n2, hn2⟩ : ∃ n2, n2 = c - c / 4 := ⟨_, rfl⟩
  obtain ⟨d2, hd2⟩ : ∃ d2, d2 = d1 - 36524 * n2 := ⟨_, rfl⟩
  have hd2le : d2 ≤ 36524 ∧ n2 ≤ 3 ∧ 36524 * n2 ≤ d1 ∧ (d2 < 36524 ∨ n2 = 3) := by
    interval_cases c <;> omega
  obtain ⟨n3, hn3⟩ : ∃ n3, n3 = d2 / 1461 := ⟨_, rfl⟩
  obtain ⟨d3, hd3⟩ : ∃ d3, d3 = d2 - 1461 * n3 := ⟨_, rfl⟩
  obtain ⟨e, he⟩ : ∃ e, e = d3 / 365 := ⟨_, rfl⟩
  have he4 : e ≤ 4 := by omega
  obtain ⟨n4, hn4⟩ : ∃ n4, n4 = e - e / 4 := ⟨_, rfl⟩
  have hd4 : n4 ≤ 3 ∧ d3 - 365 * n4 ≤ 365 ∧ 365 * n4 ≤ d3 ∧ (d3 - 365 * n4 < 365 ∨ n4 = 3) := by
    interval_cases e <;> omega
  refine ⟨a, d1, n2, d2, n3, d3, n4, by omega, by omega, hd2le.2.1, by omega, hd2le.1,
    by omega, by omega, by omega, hd4.1, hd4.2.1, hd4.2.2.1, hd2le.2.2.2, hd4.2.2.2, ?_⟩
  simp only [absYearDay]
  rw [← ha, ← hd1, ← hc, ← hn2, ← hd2, ← hn3, ← hd3, ← he, ← hn4]

/-- From 0000-01-01 to 9999-12-31 the year has four digits. -/
theorem absYearDay_year_bounds (days : Nat) (h1 : 106751990353566 ≤ days)
    (h2 : days ≤ 106751994005990) :
    0 ≤ (absYearDay days).1 ∧ (absYearDay days).1 ≤ 9999 := by
  obtain ⟨a, d1, n2, d2, n3, d3, n4, e1, e2, e3, e4, e5, e6, e7, e8, e9, e10, e11, e13, e14, e12⟩ :=
    absYearDay_eq days
  rw [e12]
  simp only [absoluteZeroYear]
  interval_cases n2 <;> interval_cases n4 <;> omega

theorem absYearDay_yday_bound (days : Nat) : (absYearDay days).2 ≤ 365 := by
  obtain ⟨a, d1, n2, d2, n3, d3, n4, e1, e2, e3, e4, e5, e6, e7, e8, e9, e10, e11, e13, e14, e12⟩ :=
    absYearDay_eq days
  rw [e12]
  exact e10

theorem digitValue_digitChar (d : Nat) : (strconv.digitValue (digitChar d)).isSome = true := by
  unfold digitChar
  have h : d % 10 < 10 := Nat.mod_lt _ (by decide)
  generalize d % 10 = k at h
  interval_cases k <;> decide

theorem monthDay_bounds (leap : Bool) (yday : Nat) (h : yday ≤ 365) :
    (monthDay leap yday).1 < 100 ∧ (monthDay leap yday).2 < 100 := by
  unfold monthDay
  split
  · decide
  · generalize hday : (if (leap && decide (yday > 31 + 29 - 1)) = true then yday - 1 else yday) = day
    have hd : day ≤ 365 := by
      rw [← hday]; split <;> omega
    obtain ⟨m, hm⟩ : ∃ m, m = day / 31 := ⟨_, rfl⟩
    simp only [← hm]
    have hm11 : m ≤ 11 := by omega
    interval_cases m <;> simp [daysBefore] <;> split <;> simp <;> omega

theorem appendInt_two (x : Nat) (h : x < 100) :
    appendInt (x : Int) 2 = [digitChar (x / 10), digitChar x] := by
  unfold appendInt
  have h1 : ¬ ((x : Int) < 0) := by omega
  simp [h1, h]

theorem appendInt_four (x : Int) (h0 : 0 ≤ x) (h : x ≤ 9999) :
    appendInt x 4 = [digitChar (x.natAbs / 1000), digitChar (x.natAbs / 100),
      digitChar (x.natAbs / 10), digitChar x.natAbs] := by
  unfold appendInt
  have h1 : ¬ (x < 0) := by omega
  have h2 : x.natAbs < 10000 := by omega
  simp [h1, h2]

/-- An instant of the years 0 to 9999 is formatted as `YYYY-MM-DD HH:MM:SS`. -/
theorem Format_isCanonical (t : Time) (h1 : -62167219200 ≤ t.sec) (h2 : t.sec ≤ 253402300799) :
    isCanonical t.Format = true := by
  unfold Time.Format
  have habs : 9223371966548102400 ≤ t.abs ∧ t.abs ≤ 9223372282117622399 := by
    unfold Time.abs unixToAbsolute; omega
  obtain ⟨hy0, hy1⟩ := absYearDay_year_bounds (t.abs / 86400) (by omega) (by omega)
  have hyd := absYearDay_yday_bound (t.abs / 86400)
  obtain ⟨hm, hd⟩ := monthDay_bounds (isLeap (absYearDay (t.abs / 86400)).1)
    (absYearDay (t.abs / 86400)).2 hyd
  simp only []
  rw [appendInt_four _ hy0 hy1, appendInt_two _ hm, appendInt_two _ hd,
    appendInt_two (t.abs % 86400 / 3600) (by omega), appendInt_two (t.abs % 3600 / 60) (by omega),
    appendInt_two (t.abs % 60) (by omega)]
  simp [isCanonical, digitValue_digitChar]

theorem wrapInt64_of_fits (x : Int) (h1 : -9223372036854775808 ≤ x) (h2 : x < 9223372036854775808) :
    wrapInt64 x = x := by
  unfold wrapInt64
  norm_num
  omega

theorem wrapInt64_bounds (x : Int) :
    -9223372036854775808 ≤ wrapInt64 x ∧ wrapInt64 x < 9223372036854775808 := by
  unfold wrapInt64
  norm_num
  omega

theorem Add_sec_bounds (t : Time) (d : Int) (h1 : -9223372036854775808 ≤ d)
    (h2 : d < 9223372036854775808) :
    t.sec - 9223372038 ≤ (t.Add d).sec ∧ (t.Add d).sec ≤ t.sec + 9223372038 := by
  have hq : -9223372037 ≤ Int.tdiv d 1000000000 ∧ Int.tdiv d 1000000000 ≤ 9223372037 := by
    by_cases hd : 0 ≤ d
    · rw [Int.tdiv_eq_ediv hd (by decide)]; omega
    · have : Int.tdiv d 1000000000 = -((-d) / 1000000000) := by
        rw [← Int.tdiv_eq_ediv (by omega) (by decide), Int.neg_tdiv, Int.neg_neg]
      rw [this]; omega
  unfold Time.Add
  simp only []
  split
  · simp only []; omega
  · split
    · simp only []; omega
    · simp only []; omega

theorem Add_of_seconds (t : Time) (k : Int) (h1 : 0 ≤ t.nsec) (h2 : t.nsec < 1000000000) :
    t.Add (k * 1000000000) = { sec := t.sec + k, nsec := t.nsec } := by
  unfold Time.Add
  simp only [Int.mul_tdiv_cancel k (by decide : (1000000000 : Int) ≠ 0), Int.mul_tmod_left,
    Int.add_zero]
  rw [if_neg (by omega), if_neg (by omega)]

/-- The `d` branch of `parseEndDateTimeOption`. -/
theorem parseEnd_days (now : Time) (expr : String) (n : Int)
    (hne : strings.TrimSpace expr ≠ "")
    (hd : strings.HasSuffix (strings.TrimSpace expr) "d" = true)
    (hn : strconv.Atoi (strings.CutSuffix (strings.TrimSpace expr) "d").1 = .ok n) :
    parseEndDateTimeOption now expr
      = ((now.Add (mulDuration (mulDuration n 24) Hour)).Format, none) := by
  unfold parseEndDateTimeOption
  simp [hne, hd, hn]

/-- The `h` branch of `parseEndDateTimeOption`. -/
theorem parseEnd_hours (now : Time) (expr : String) (n : Int)
    (hne : strings.TrimSpace expr ≠ "")
    (hd : strings.HasSuffix (strings.TrimSpace expr) "d" = false)
    (hh : strings.HasSuffix (strings.TrimSpace expr) "h" = true)
    (hn : strconv.Atoi (strings.CutSuffix (strings.TrimSpace expr) "h").1 = .ok n) :
    parseEndDateTimeOption now expr = ((now.Add (mulDuration n Hour)).Format, none) := by
  unfold parseEndDateTimeOption
  simp [hne, hd, hh, hn]

theorem Atoi_empty : strconv.Atoi "" = .error "strconv.Atoi: parsing \"\": invalid syntax" := by
  rfl

/-- The fall-through of `parseEndDateTimeOption`: the trimmed text and the error of
`time.Parse`. -/
theorem parseEnd_absolute (now : Time) (expr : String)
    (hne : strings.TrimSpace expr ≠ "")
    (hrel : isRelative (strings.TrimSpace expr) = false) :
    parseEndDateTimeOption now expr
      = match time.Parse (strings.TrimSpace expr) with
        | .ok _ => (strings.TrimSpace expr, none)
        | .error err => (strings.TrimSpace expr, some err) := by
  unfold isRelative at hrel
  simp only [Bool.or_eq_false_iff, Bool.and_eq_false_iff] at hrel
  obtain ⟨h1, h2⟩ := hrel
  unfold parseEndDateTimeOption
  by_cases hd : strings.HasSuffix (strings.TrimSpace expr) "d" = true
  · rcases h1 with h1 | h1
    · rw [hd] at h1; cases h1
    · cases ha : strconv.Atoi (strings.CutSuffix (strings.TrimSpace expr) "d").1 with
      | ok n => rw [ha] at h1; simp [Except.toBool] at h1
      | error e =>
        simp [hne, hd, ha]
  · by_cases hh : strings.HasSuffix (strings.TrimSpace expr) "h" = true
    · rcases h2 with h2 | h2
      · rw [hh] at h2; cases h2
      · cases ha : strconv.Atoi (strings.CutSuffix (strings.TrimSpace expr) "h").1 with
        | ok n => rw [ha] at h2; simp [Except.toBool] at h2
        | error e =>
          simp [hne, hd, hh, ha]
    · simp [hne, hd, hh, Atoi_empty]

theorem splitSign_other (c : Char) (cs : List Char) (h1 : c ≠ '-') (h2 : c ≠ '+') :
    strconv.splitSign (c :: cs) = (false, c :: cs) := by
  unfold strconv.splitSign
  split
  · rename_i heq; simp at heq; exact absurd heq.1 h1
  · rename_i heq; simp at heq; exact absurd heq.1 h2
  · rfl

theorem Atoi_ok_first (s : String) (n : Int) (h : strconv.Atoi s = .ok n) :
    ∃ c cs, s.data = c :: cs ∧ unicode.IsSpace c = false := by
  cases hs : s.data with
  | nil =>
    exfalso
    unfold strconv.Atoi at h
    rw [hs] at h
    simp [strconv.splitSign] at h
  | cons c cs =>
    refine ⟨c, cs, rfl, ?_⟩
    by_cases h1 : c = '-'
    · subst h1; decide
    · by_cases h2 : c = '+'
      · subst h2; decide
      · unfold strconv.Atoi at h
        rw [hs, splitSign_other c cs h1 h2] at h
        simp only [strconv.parseDigits] at h
        cases hd : strconv.digitValue c with
        | none => simp [hd] at h
        | some d =>
          unfold strconv.digitValue at hd
          split at hd
          · rename_i hr
            unfold unicode.IsSpace
            simp
            omega
          · cases hd

theorem TrimSpace_append_char (s t : String) (x c : Char) (cs : List Char)
    (hs : s.data = c :: cs) (hc : unicode.IsSpace c = false) (hx : unicode.IsSpace x = false)
    (ht : t.data = s.data ++ [x]) : strings.TrimSpace t = t := by
  unfold strings.TrimSpace
  apply String.ext
  simp only [ht, hs, List.cons_append, List.dropWhile_cons, hc, Bool.false_eq_true, if_false,
    List.reverse_cons, List.reverse_append, List.reverse_nil, List.nil_append,
    List.singleton_append, hx, List.append_assoc]
  simp

theorem HasSuffix_append_char (s t : String) (x y : Char) (ht : t.data = s.data ++ [x]) :
    strings.HasSuffix t (String.mk [y]) = decide (x = y) := by
  unfold strings.HasSuffix
  simp [ht, List.isPrefixOf]
  by_cases h : y = x
  · simp [h]
  · have : ¬ x = y := fun e => h e.symm
    simp [h, this]

theorem CutSuffix_append_char (s t : String) (x : Char) (ht : t.data = s.data ++ [x]) :
    (strings.CutSuffix t (String.mk [x])).1 = s := by
  unfold strings.CutSuffix
  rw [HasSuffix_append_char s t x x ht]
  simp [ht]

theorem HasSuffix_h_not_d (e : String) (h : strings.HasSuffix e "h" = true) :
    strings.HasSuffix e "d" = false := by
  unfold strings.HasSuffix at *
  cases hr : e.data.reverse with
  | nil => rw [hr] at h; simp [List.isPrefixOf] at h
  | cons c cs =>
    rw [hr] at h
    simp [List.isPrefixOf] at h
    simp [List.isPrefixOf, ← h]

theorem HasSuffix_ne_empty (e x : String) (hx : x ≠ "") (h : strings.HasSuffix e x = true) :
    e ≠ "" := by
  intro he
  subst he
  unfold strings.HasSuffix at h
  cases hxd : x.data.reverse with
  | nil =>
    apply hx
    apply String.ext
    simpa using hxd
  | cons c cs => rw [hxd] at h; simp [List.isPrefixOf] at h

/-- C7 (counterexample): `strconv.Atoi` accepts `106752`, but `106752 * 24` hours do not fit
the `int64` nanoseconds of a `time.Duration`: with now = 2024-01-10 00:00:00 the expression
`106752d` resolves to a day of 1731, while now + 106752 days is 2316-04-21. -/
theorem C7_counterexample :
    strconv.Atoi "106752" = .ok 106752 ∧
    parseEndDateTimeOption ⟨1704844800, 0⟩ "106752d" = ("1731-10-01 00:25:26", none) ∧
    Time.Format ⟨1704844800 + 106752 * 86400, 0⟩ = "2316-04-21 00:00:00" := by
  refine ⟨rfl, by decide, by decide⟩

/-- C7 (amended): for a text `s` that `strconv.Atoi` reads as `n`, `"<s>d"` resolves without
error to the formatting of now + `n` days when `-106751 ≤ n ≤ 106751`, and `"<s>h"` to the
formatting of now + `n` hours when `-2562047 ≤ n ≤ 2562047` (the offsets that fit a
`time.Duration`); with now = 2024-01-10 00:00:00, `-2d` gives `2024-01-08 00:00:00` and `2h`
gives `2024-01-10 02:00:00`. -/
theorem C7_relative_end (now : Time) (s : String) (n : Int)
    (hnsec : 0 ≤ now.nsec ∧ now.nsec < 1000000000)
    (hs : strconv.Atoi s = .ok n) :
    (-106751 ≤ n ∧ n ≤ 106751 →
      parseEndDateTimeOption now (s ++ "d")
        = (Time.Format ⟨now.sec + n * 86400, now.nsec⟩, none)) ∧
    (-2562047 ≤ n ∧ n ≤ 2562047 →
      parseEndDateTimeOption now (s ++ "h")
        = (Time.Format ⟨now.sec + n * 3600, now.nsec⟩, none)) ∧
    parseEndDateTimeOption ⟨1704844800, 0⟩ "-2d" = ("2024-01-08 00:00:00", none) ∧
    parseEndDateTimeOption ⟨1704844800, 0⟩ "2h" = ("2024-01-10 02:00:00", none) := by
  obtain ⟨c, cs, hdata, hc⟩ := Atoi_ok_first s n hs
  have hd : (s ++ "d").data = s.data ++ ['d'] := by simp
  have hh : (s ++ "h").data = s.data ++ ['h'] := by simp
  have htd := TrimSpace_append_char s (s ++ "d") 'd' c cs hdata hc (by decide) hd
  have hth := TrimSpace_append_char s (s ++ "h") 'h' c cs hdata hc (by decide) hh
  have hned : s ++ "d" ≠ "" := by
    intro h; have := congrArg String.data h; rw [hd, hdata] at this; simp at this
  have hneh : s ++ "h" ≠ "" := by
    intro h; have := congrArg String.data h; rw [hh, hdata] at this; simp at this
  refine ⟨?_, ?_, by decide, by decide⟩
  · intro hn
    rw [parseEnd_days now (s ++ "d") n (by rw [htd]; exact hned)
      (by rw [htd]; exact (HasSuffix_append_char s _ 'd' 'd' hd).trans (by decide))
      (by rw [htd]; exact (CutSuffix_append_char s _ 'd' hd).symm ▸ hs)]
    have e1 : mulDuration n 24 = n * 24 := wrapInt64_of_fits _ (by omega) (by omega)
    have e2 : mulDuration (n * 24) Hour = (n * 86400) * 1000000000 := by
      unfold mulDuration Hour
      rw [wrapInt64_of_fits _ (by omega) (by omega)]
      ring
    rw [e1, e2, Add_of_seconds now _ hnsec.1 hnsec.2]
  · intro hn
    rw [parseEnd_hours now (s ++ "h") n (by rw [hth]; exact hneh)
      (by rw [hth]; exact (HasSuffix_append_char s _ 'h' 'd' hh).trans (by decide))
      (by rw [hth]; exact (HasSuffix_append_char s _ 'h' 'h' hh).trans (by decide))
      (by rw [hth]; exact (CutSuffix_append_char s _ 'h' hh).symm ▸ hs)]
    have e2 : mulDuration n Hour = (n * 3600) * 1000000000 := by
      unfold mulDuration Hour
      rw [wrapInt64_of_fits _ (by omega) (by omega)]
      ring
    rw [e2, Add_of_seconds now _ hnsec.1 hnsec.2]

/-- C7 (witness): `-2d` at 2024-01-10 00:00:00. -/
theorem C7_relative_end_witness :
    strconv.Atoi "-2" = .ok (-2) ∧
    parseEndDateTimeOption ⟨1704844800, 0⟩ ("-2" ++ "d")
      = (Time.Format ⟨1704844800 + (-2) * 86400, 0⟩, none) :=
  ⟨rfl, (C7_relative_end ⟨1704844800, 0⟩ "-2" (-2) (by decide) rfl).1 (by decide)⟩

/-- C8: for an expression whose trimmed text is non-empty and not relative (not a `d`- or
`h`-suffixed text whose prefix parses as an integer), `parseEndDateTimeOption` returns the
trimmed text with no error exactly when `time.Parse` accepts it under the layout
`"2006-01-02 15:04:05"`, and returns the error of `time.Parse` otherwise;
`2024-05-01 10:00:00` is returned unchanged and `bogus` yields an error. -/
theorem C8_absolute_end (now : Time) (expr : String)
    (hne : strings.TrimSpace expr ≠ "")
    (hrel : isRelative (strings.TrimSpace expr) = false) :
    (parseEndDateTimeOption now expr = (strings.TrimSpace expr, none)
      ↔ ∃ p, time.Parse (strings.TrimSpace expr) = .ok p) ∧
    (∀ err, time.Parse (strings.TrimSpace expr) = .error err →
      parseEndDateTimeOption now expr = (strings.TrimSpace expr, some err)) ∧
    parseEndDateTimeOption now "2024-05-01 10:00:00" = ("2024-05-01 10:00:00", none) ∧
    (parseEndDateTimeOption now "bogus").1 = "bogus" ∧
    (parseEndDateTimeOption now "bogus").2 ≠ none := by
  have habs := parseEnd_absolute now expr hne hrel
  have h1 := parseEnd_absolute now "2024-05-01 10:00:00" (by decide) (by decide)
  have h2 := parseEnd_absolute now "bogus" (by decide) (by decide)
  refine ⟨?_, ?_, ?_, ?_, ?_⟩
  · rw [habs]
    cases time.Parse (strings.TrimSpace expr) with
    | ok p => simp
    | error e => simp
  · intro err herr
    rw [habs, herr]
  · rw [h1]; rfl
  · rw [h2]; rfl
  · rw [h2]; decide

/-- C8 (witness): an absolute datetime between spaces. -/
theorem C8_absolute_end_witness :
    strings.TrimSpace " 2024-05-01 10:00:00 " ≠ "" ∧
    isRelative (strings.TrimSpace " 2024-05-01 10:00:00 ") = false ∧
    (parseEndDateTimeOption ⟨1704844800, 0⟩ " 2024-05-01 10:00:00 "
        = (strings.TrimSpace " 2024-05-01 10:00:00 ", none)
      ↔ ∃ p, time.Parse (strings.TrimSpace " 2024-05-01 10:00:00 ") = .ok p) :=
  ⟨by decide, by decide,
   (C8_absolute_end ⟨1704844800, 0⟩ " 2024-05-01 10:00:00 " (by decide) (by decide)).1⟩

/-- C9 (counterexample): `time.Parse` accepts a one-digit hour, so `2024-05-01 9:00:00` is
returned, without error, as it is; and on the last day of year 9999 the expression `1d`
resolves to `10000-01-01 00:00:00`.  Neither string has the form `YYYY-MM-DD HH:MM:SS`. -/
theorem C9_counterexample :
    parseEndDateTimeOption ⟨1704844800, 0⟩ "2024-05-01 9:00:00" = ("2024-05-01 9:00:00", none) ∧
    isCanonical "2024-05-01 9:00:00" = false ∧
    parseEndDateTimeOption ⟨253402214400, 0⟩ "1d" = ("10000-01-01 00:00:00", none) ∧
    isCanonical "10000-01-01 00:00:00" = false := by
  decide

/-- C9 (amended): for `now` further than the largest `time.Duration` (2^63 ns, about 292
years) from the start of year 0 and from the end of year 9999, a relative expression (a
`d`- or `h`-suffixed integer once trimmed) resolves without error to a string of exactly
the form `YYYY-MM-DD HH:MM:SS`; for any other expression the string returned is the trimmed
expression itself. -/
theorem C9_resolved_end_shape (now : Time) (expr : String)
    (hnow : -52943847162 ≤ now.sec ∧ now.sec ≤ 244178928761) :
    (isRelative (strings.TrimSpace expr) = true →
      (parseEndDateTimeOption now expr).2 = none ∧
      isCanonical (parseEndDateTimeOption now expr).1 = true) ∧
    (isRelative (strings.TrimSpace expr) = false →
      (parseEndDateTimeOption now expr).1 = strings.TrimSpace expr) := by
  constructor
  · intro hrel
    have key : ∀ d : Int, isCanonical (now.Add (wrapInt64 d)).Format = true := by
      intro d
      obtain ⟨b1, b2⟩ := wrapInt64_bounds d
      obtain ⟨a1, a2⟩ := Add_sec_bounds now (wrapInt64 d) b1 b2
      exact Format_isCanonical _ (by omega) (by omega)
    unfold isRelative at hrel
    simp only [Bool.or_eq_true, Bool.and_eq_true] at hrel
    rcases hrel with ⟨hd, ha⟩ | ⟨hh, ha⟩
    · cases hn : strconv.Atoi (strings.CutSuffix (strings.TrimSpace expr) "d").1 with
      | error e => rw [hn] at ha; simp [Except.toBool] at ha
      | ok n =>
        rw [parseEnd_days now expr n (HasSuffix_ne_empty _ "d" (by decide) hd) hd hn]
        exact ⟨rfl, key _⟩
    · cases hn : strconv.Atoi (strings.CutSuffix (strings.TrimSpace expr) "h").1 with
      | error e => rw [hn] at ha; simp [Except.toBool] at ha
      | ok n =>
        rw [parseEnd_hours now expr n (HasSuffix_ne_empty _ "h" (by decide) hh)
          (HasSuffix_h_not_d _ hh) hh hn]
        exact ⟨rfl, key _⟩
  · intro hrel
    by_cases hne : strings.TrimSpace expr = ""
    · unfold parseEndDateTimeOption
      simp [hne]
    · rw [parseEnd_absolute now expr hne hrel]
      cases time.Parse (strings.TrimSpace expr) <;> rfl

/-- C9 (witness): `-2d` at 2024-01-10 00:00:00. -/
theorem C9_resolved_end_shape_witness :
    isRelative (strings.TrimSpace "-2d") = true ∧
    isCanonical (parseEndDateTimeOption ⟨1704844800, 0⟩ "-2d").1 = true :=
  ⟨by decide,
   ((C9_resolved_end_shape ⟨1704844800, 0⟩ "-2d" (by decide)).1 (by decide)).2⟩

end cmd

/-! ### The empty snapshot (C13) -/

namespace scraper

/-- C13: when the window fetch succeeds, `Scrape` of a snapshot with no item issues no
`Update` and no `Save`, leaves the store as it was and returns no error. -/
theorem C13_empty_snapshot {σ : Type} (gh : TrendingRepositoryRepo σ) (s : σ)
    (now : time.Time) (language : String) (m : RankedTrendingRepo)
    (hm : gh.FindRankedTrendingRepoByDate s now language = .ok m) :
    (Scrape gh s [] now language).writes = [] ∧
    (Scrape gh s [] now language).err = none ∧
    (Scrape gh s [] now language).store = s := by
  simp [Scrape, hm, scrapeLoop]

/-- C13 (witness): the empty snapshot over a table that holds rank 1. -/
theorem C13_empty_snapshot_witness :
    (Scrape (tableRepo (fun _ => none))
        ⟨[⟨1, "a/b", ⟨"go", true⟩, ⟨1704844800, 0⟩, ⟨1704844800, 0⟩, 1⟩], 0⟩
        [] ⟨1704844900, 0⟩ "go").writes = [] ∧
    (Scrape (tableRepo (fun _ => none))
        ⟨[⟨1, "a/b", ⟨"go", true⟩, ⟨1704844800, 0⟩, ⟨1704844800, 0⟩, 1⟩], 0⟩
        [] ⟨1704844900, 0⟩ "go").err = none ∧
    (Scrape (tableRepo (fun _ => none))
        ⟨[⟨1, "a/b", ⟨"go", true⟩, ⟨1704844800, 0⟩, ⟨1704844800, 0⟩, 1⟩], 0⟩
        [] ⟨1704844900, 0⟩ "go").store
      = ⟨[⟨1, "a/b", ⟨"go", true⟩, ⟨1704844800, 0⟩, ⟨1704844800, 0⟩, 1⟩], 0⟩ :=
  C13_empty_snapshot (tableRepo (fun _ => none))
    ⟨[⟨1, "a/b", ⟨"go", true⟩, ⟨1704844800, 0⟩, ⟨1704844800, 0⟩, 1⟩], 0⟩
    ⟨1704844900, 0⟩ "go" _ rfl

end scraper

/-! ### The queries of `FindAll` and the blank end expression (C12, C14) -/

namespace model

/-- The eight query texts of `FindAll`. -/
theorem findAllQuery_text (start end_ : String) (limit : Int) :
    (findAllQuery start end_ limit).1
      = "select * from repositories" ++
        (if start ≠ "" ∧ end_ ≠ "" then " where updated_at > ? and updated_at <= ?"
         else if start ≠ "" then " where updated_at > ?"
         else if end_ ≠ "" then " where updated_at <= ?"
         else "") ++
        (if limit > 0 then " LIMIT ?" else "") := by
  by_cases hs : start = "" <;> by_cases he : end_ = "" <;> by_cases hl : limit > 0 <;>
    simp [findAllQuery, hs, he, hl, strings.Join]

/-- The argument list of `FindAll`. -/
theorem findAllQuery_args (start end_ : String) (limit : Int) :
    (findAllQuery start end_ limit).2
      = (if start ≠ "" then [Any.str start] else []) ++
        (if end_ ≠ "" then [Any.str end_] else []) ++
        (if limit > 0 then [Any.int limit] else []) := by
  by_cases hs : start = "" <;> by_cases he : end_ = "" <;> by_cases hl : limit > 0 <;>
    simp [findAllQuery, hs, he, hl]

/-- Rows that all scan without error are returned in order. -/
theorem scanAll_ok {α : Type} (l : List α) :
    ∀ acc : List α, scanAll (l.map Except.ok) acc = .ok (acc ++ l) := by
  induction l with
  | nil => intro acc; simp [scanAll]
  | cons a l ih => intro acc; simp [scanAll, ih]

/-- C12: the query text of `FindAll` is `select * from repositories`, then a where clause
with `updated_at > ?` exactly when `start` is non-empty and `updated_at <= ?` exactly when
`end` is non-empty (joined by ` and ` in that order, no where clause when both are empty),
then ` LIMIT ?` exactly when `limit > 0`; the argument list is the non-empty `start`, the
non-empty `end` and the positive `limit`, in that order; the text has as many `?` as there
are arguments; and these are the text and the arguments handed to `QueryContext`. -/
theorem C12_FindAll_query (start end_ : String) (limit : Int) :
    (findAllQuery start end_ limit).1
      = "select * from repositories" ++
        (if start ≠ "" ∧ end_ ≠ "" then " where updated_at > ? and updated_at <= ?"
         else if start ≠ "" then " where updated_at > ?"
         else if end_ ≠ "" then " where updated_at <= ?"
         else "") ++
        (if limit > 0 then " LIMIT ?" else "") ∧
    (findAllQuery start end_ limit).2
      = (if start ≠ "" then [Any.str start] else []) ++
        (if end_ ≠ "" then [Any.str end_] else []) ++
        (if limit > 0 then [Any.int limit] else []) ∧
    (strings.Contains (findAllQuery start end_ limit).1 "updated_at > ?" = true ↔ start ≠ "") ∧
    (strings.Contains (findAllQuery start end_ limit).1 "updated_at <= ?" = true ↔ end_ ≠ "") ∧
    (strings.Contains (findAllQuery start end_ limit).1 " where " = true
      ↔ (start ≠ "" ∨ end_ ≠ "")) ∧
    (strings.Contains (findAllQuery start end_ limit).1 " LIMIT ?" = true ↔ limit > 0) ∧
    strings.countPlaceholders (findAllQuery start end_ limit).1
      = (findAllQuery start end_ limit).2.length ∧
    ∀ QueryContext : String → List Any → Except Error (Rows GhRepository),
      (∀ err, QueryContext (findAllQuery start end_ limit).1 (findAllQuery start end_ limit).2
          = .error err → FindAll QueryContext start end_ limit = ([], some err)) ∧
      (∀ repositories, QueryContext (findAllQuery start end_ limit).1
          (findAllQuery start end_ limit).2 = .ok ⟨repositories.map .ok, none⟩ →
        FindAll QueryContext start end_ limit = (repositories, none)) := by
  refine ⟨findAllQuery_text start end_ limit, findAllQuery_args start end_ limit,
    ?_, ?_, ?_, ?_, ?_, ?_⟩
  · rw [findAllQuery_text]
    by_cases hs : start = "" <;> by_cases he : end_ = "" <;> by_cases hl : limit > 0 <;>
      simp only [hs, he, hl, ne_eq, not_true_eq_false, not_false_eq_true, and_self, and_true,
        and_false, false_and, if_true, if_false, iff_true, iff_false] <;> decide
  · rw [findAllQuery_text]
    by_cases hs : start = "" <;> by_cases he : end_ = "" <;> by_cases hl : limit > 0 <;>
      simp only [hs, he, hl, ne_eq, not_true_eq_false, not_false_eq_true, and_self, and_true,
        and_false, false_and, if_true, if_false, iff_true, iff_false] <;> decide
  · rw [findAllQuery_text]
    by_cases hs : start = "" <;> by_cases he : end_ = "" <;> by_cases hl : limit > 0 <;>
      simp only [hs, he, hl, ne_eq, not_true_eq_false, not_false_eq_true, and_self, and_true,
        and_false, false_and, if_true, if_false, iff_true, iff_false, or_self, or_true,
        true_or, or_false] <;> decide
  · rw [findAllQuery_text]
    by_cases hs : start = "" <;> by_cases he : end_ = "" <;> by_cases hl : limit > 0 <;>
      simp only [hs, he, hl, ne_eq, not_true_eq_false, not_false_eq_true, and_self, and_true,
        and_false, false_and, if_true, if_false, iff_true, iff_false] <;> decide
  · rw [findAllQuery_text, findAllQuery_args]
    by_cases hs : start = "" <;> by_cases he : end_ = "" <;> by_cases hl : limit > 0 <;>
      simp only [hs, he, hl, ne_eq, not_true_eq_false, not_false_eq_true, and_self, and_true,
        and_false, false_and, if_true, if_false] <;> rfl
  · intro QueryContext
    constructor
    · intro err h
      simp [FindAll, h]
    · intro repositories h
      simp [FindAll, h, scanAll_ok]

end model

namespace cmd

/-- Trimming a text made of white space leaves nothing. -/
theorem TrimSpace_blank (s : String) (hs : ∀ c ∈ s.data, unicode.IsSpace c = true) :
    strings.TrimSpace s = "" := by
  unfold strings.TrimSpace
  have h : s.data.dropWhile unicode.IsSpace = [] := by
    rw [List.dropWhile_eq_nil_iff]
    exact hs
  rw [h]
  rfl

/-- C14: for an expression made of white space only (the empty string included),
`parseEndDateTimeOption` returns the empty string and no error; and `FindAll` called with
that result as `end` builds a query without the predicate `updated_at <= ?` and without an
argument for `end`. -/
theorem C14_blank_end (now : time.Time) (s : String)
    (hs : ∀ c ∈ s.data, unicode.IsSpace c = true) :
    parseEndDateTimeOption now s = ("", none) ∧
    ∀ (start : String) (limit : Int),
      strings.Contains (findAllQuery start (parseEndDateTimeOption now s).1 limit).1
        "updated_at <= ?" = false ∧
      (findAllQuery start (parseEndDateTimeOption now s).1 limit).1
        = "select * from repositories" ++
          (if start ≠ "" then " where updated_at > ?" else "") ++
          (if limit > 0 then " LIMIT ?" else "") ∧
      (findAllQuery start (parseEndDateTimeOption now s).1 limit).2
        = (if start ≠ "" then [Any.str start] else []) ++
          (if limit > 0 then [Any.int limit] else []) := by
  have h : parseEndDateTimeOption now s = ("", none) := by
    unfold parseEndDateTimeOption
    simp [TrimSpace_blank s hs]
  refine ⟨h, ?_⟩
  intro start limit
  rw [h]
  simp only [findAllQuery_text, findAllQuery_args]
  by_cases hst : start = "" <;> by_cases hl : limit > 0 <;>
    simp only [hst, hl, ne_eq, not_true_eq_false, not_false_eq_true, and_self, and_true,
      and_false, false_and, if_true, if_false, List.append_nil, List.nil_append, true_and] <;>
    decide

/-- C14 (witness): a space, a tab and a line feed. -/
theorem C14_blank_end_witness :
    (∀ c ∈ " \t\n".data, unicode.IsSpace c = true) ∧
    parseEndDateTimeOption ⟨1704844800, 0⟩ " \t\n" = ("", none) :=
  ⟨by decide, (C14_blank_end ⟨1704844800, 0⟩ " \t\n" (by decide)).1⟩

end cmd

/-! ### The arguments of the ranking query (C11) -/

namespace model

open dbutils

/-- The predicates `FindTrendingRepositories` declares, with their bound arguments: the
"is null" test is declared with the `nil` of `qb.Where(text, nil)`. -/
theorem trendingQueryBuilder_wheres (qb : QueryBuilder) (now : time.Time) (language : String)
    (limit dataRange : Int) :
    (trendingQueryBuilder qb now language limit dataRange).wheres
      = (if strings.TrimSpace language ≠ "" then
          [("`trending_repositories`.`language` = ?", [Any.str (strings.TrimSpace language)])]
         else [("`trending_repositories`.`language` is null", [Any.nil])]) ++
        (if dataRange > 0 then
          [("`trending_repositories`.`trend_date` > ?",
            [Any.str (now.AddDays (-dataRange)).FormatDate])]
         else []) := by
  by_cases hl : strings.TrimSpace language = "" <;> by_cases hd : dataRange > 0 <;>
    by_cases hn : limit > 0 <;>
    simp [trendingQueryBuilder, QueryBuilder.Query, QueryBuilder.Where, QueryBuilder.OrderBy,
      QueryBuilder.Limit, QueryBuilder.GroupBy, hl, hd, hn]

/-- The limit `FindTrendingRepositories` declares. -/
theorem trendingQueryBuilder_limit (qb : QueryBuilder) (now : time.Time) (language : String)
    (limit dataRange : Int) :
    (trendingQueryBuilder qb now language limit dataRange).limit
      = if limit > 0 then some limit else none := by
  by_cases hl : strings.TrimSpace language = "" <;> by_cases hd : dataRange > 0 <;>
    by_cases hn : limit > 0 <;>
    simp [trendingQueryBuilder, QueryBuilder.Query, QueryBuilder.Where, QueryBuilder.OrderBy,
      QueryBuilder.Limit, QueryBuilder.GroupBy, hl, hd, hn]

/-- The argument list of the ranking query. -/
theorem trendingQuery_args (qb : QueryBuilder) (now : time.Time) (language : String)
    (limit dataRange : Int) :
    (trendingQueryBuilder qb now language limit dataRange).GetQuery.2
      = (if strings.TrimSpace language ≠ "" then [Any.str (strings.TrimSpace language)]
         else [Any.nil]) ++
        (if dataRange > 0 then [Any.str (now.AddDays (-dataRange)).FormatDate] else []) ++
        (if limit > 0 then [Any.int limit] else []) := by
  simp only [QueryBuilder.GetQuery, QueryBuilder.argList, trendingQueryBuilder_wheres,
    trendingQueryBuilder_limit]
  by_cases hl : strings.TrimSpace language = "" <;> by_cases hd : dataRange > 0 <;>
    by_cases hn : limit > 0 <;> simp [hl, hd, hn]

set_option maxRecDepth 100000 in
/-- The rendered ranking query has one `?` per argument when a language is given, and one
`?` less than it has arguments when none is given. -/
theorem trendingQuery_placeholders (qb : QueryBuilder) (now : time.Time) (language : String)
    (limit dataRange : Int) :
    strings.countPlaceholders (trendingQueryBuilder qb now language limit dataRange).GetQuery.1
        + (if strings.TrimSpace language ≠ "" then 0 else 1)
      = (trendingQueryBuilder qb now language limit dataRange).GetQuery.2.length := by
  rw [trendingQuery_args]
  by_cases hl : strings.TrimSpace language = "" <;> by_cases hd : dataRange > 0 <;>
    by_cases hn : limit > 0 <;>
    simp [trendingQueryBuilder, QueryBuilder.Query, QueryBuilder.Where, QueryBuilder.OrderBy,
      QueryBuilder.Limit, QueryBuilder.GroupBy, QueryBuilder.GetQuery, QueryBuilder.queryText,
      strings.Join, hl, hd, hn] <;> rfl

/-- C11, the claim as stated fails: with no language given, limit 5 and no data range, the
"is null" predicate is declared with one bound argument, the `nil` of `qb.Where(text, nil)`,
and the argument list is that `nil` and then the limit, not the limit alone; the rendered
text holds one `?`. -/
theorem C11_counterexample :
    (trendingQueryBuilder ⟨"", [], [], none, none⟩ ⟨1704844800, 0⟩ "" 5 0).wheres
      = [("`trending_repositories`.`language` is null", [Any.nil])] ∧
    (trendingQueryBuilder ⟨"", [], [], none, none⟩ ⟨1704844800, 0⟩ "" 5 0).GetQuery.2
      = [Any.nil, Any.int 5] ∧
    (trendingQueryBuilder ⟨"", [], [], none, none⟩ ⟨1704844800, 0⟩ "" 5 0).GetQuery.2
      ≠ (if strings.TrimSpace "" ≠ "" then [Any.str (strings.TrimSpace "")] else []) ++
          (if (0 : Int) > 0 then
            [Any.str ((⟨1704844800, 0⟩ : time.Time).AddDays (-0)).FormatDate] else []) ++
          (if (5 : Int) > 0 then [Any.int 5] else []) ∧
    strings.countPlaceholders
      (trendingQueryBuilder ⟨"", [], [], none, none⟩ ⟨1704844800, 0⟩ "" 5 0).GetQuery.1 = 1 := by
  refine ⟨by decide, by decide, by decide, ?_⟩
  have h := trendingQuery_placeholders ⟨"", [], [], none, none⟩ ⟨1704844800, 0⟩ "" 5 0
  have ha : (trendingQueryBuilder ⟨"", [], [], none, none⟩ ⟨1704844800, 0⟩ "" 5 0).GetQuery.2
      = [Any.nil, Any.int 5] := by decide
  rw [ha] at h
  have hb : (if strings.TrimSpace "" ≠ "" then 0 else 1) = 1 := by decide
  rw [hb] at h
  simpa using h

/-- C11, amended: the argument list `FindTrendingRepositories` hands to the store is the
argument of the language predicate (the trimmed language when it is non-blank, and otherwise
the `nil` with which the "is null" predicate is declared), then the trend-date lower bound
exactly when `dataRange > 0`, then the limit exactly when `limit > 0`.  When no language is
given the first predicate is the "is null" test with the one bound argument `nil`, and the
rendered text has one `?` less than the list has arguments; when a language is given it has
one `?` per argument. -/
theorem C11_trending_arguments (qb : QueryBuilder) (now : time.Time) (language : String)
    (limit dataRange : Int) :
    (trendingQueryBuilder qb now language limit dataRange).GetQuery.2
      = (if strings.TrimSpace language ≠ "" then [Any.str (strings.TrimSpace language)]
         else [Any.nil]) ++
        (if dataRange > 0 then [Any.str (now.AddDays (-dataRange)).FormatDate] else []) ++
        (if limit > 0 then [Any.int limit] else []) ∧
    (strings.TrimSpace language = "" →
      (trendingQueryBuilder qb now language limit dataRange).wheres.head?
        = some ("`trending_repositories`.`language` is null", [Any.nil])) ∧
    (strings.TrimSpace language ≠ "" →
      (trendingQueryBuilder qb now language limit dataRange).wheres.head?
        = some ("`trending_repositories`.`language` = ?",
            [Any.str (strings.TrimSpace language)])) ∧
    strings.countPlaceholders (trendingQueryBuilder qb now language limit dataRange).GetQuery.1
        + (if strings.TrimSpace language ≠ "" then 0 else 1)
      = (trendingQueryBuilder qb now language limit dataRange).GetQuery.2.length ∧
    ∀ QueryContext : String → List Any → Except Error (Rows TrendingRepositoryResponse),
      (∀ err,
        QueryContext (trendingQueryBuilder qb now language limit dataRange).GetQuery.1
          (trendingQueryBuilder qb now language limit dataRange).GetQuery.2 = .error err →
        FindTrendingRepositories QueryContext qb now language limit dataRange
          = ([], some ("failed to query trending repositories: " ++ err))) ∧
      (∀ repositories,
        QueryContext (trendingQueryBuilder qb now language limit dataRange).GetQuery.1
          (trendingQueryBuilder qb now language limit dataRange).GetQuery.2
            = .ok ⟨repositories.map .ok, none⟩ →
        FindTrendingRepositories QueryContext qb now language limit dataRange
          = (repositories, none)) := by
  refine ⟨trendingQuery_args qb now language limit dataRange, ?_, ?_,
    trendingQuery_placeholders qb now language limit dataRange, ?_⟩
  · intro hl
    rw [trendingQueryBuilder_wheres]
    simp [hl]
  · intro hl
    rw [trendingQueryBuilder_wheres]
    simp [hl]
  · intro QueryContext
    constructor
    · intro err h
      simp [FindTrendingRepositories, h]
    · intro repositories h
      simp [FindTrendingRepositories, h, scanAll_ok]

/-- C11, amended, at the language `" Go "`, limit 5 and a data range of 7 days on
2024-01-10: the first predicate is the exact match on `"Go"`, and a store that fails with
`"down"` makes `FindTrendingRepositories` return the wrapped error. -/
theorem C11_trending_arguments_witness :
    strings.TrimSpace " Go " ≠ "" ∧
    (trendingQueryBuilder ⟨"", [], [], none, none⟩ ⟨1704844800, 0⟩ " Go " 5 7).wheres.head?
      = some ("`trending_repositories`.`language` = ?", [Any.str (strings.TrimSpace " Go ")]) ∧
    FindTrendingRepositories (fun _ _ => .error "down") ⟨"", [], [], none, none⟩
        ⟨1704844800, 0⟩ " Go " 5 7
      = ([], some ("failed to query trending repositories: " ++ "down")) :=
  ⟨by decide,
    (C11_trending_arguments ⟨"", [], [], none, none⟩ ⟨1704844800, 0⟩ " Go " 5 7).2.2.1
      (by decide),
    ((C11_trending_arguments ⟨"", [], [], none, none⟩ ⟨1704844800, 0⟩ " Go " 5 7).2.2.2.2
      (fun _ _ => .error "down")).1 "down" rfl⟩

end model
